import Mathlib

/-!
# webdav-115drive: request handler, resolver and cache

A shallow embedding of `handler.go`, `drive.go`, `cache.go` and `fs.go`, together with
the parts of the Go standard library (`path`, `strings`, `net/http`) and of
`patrickmn/go-cache` that the handler and the resolver call.

Go strings are byte strings; they are embedded as `List Char`, one element per byte.
Every byte the code inspects (slash, dot, double quote) is ASCII.
-/

namespace Webdav115

/-- A Go `string`. -/
abbrev Str := List Char

/-! ## Package `strings` -/

/-- Go `strings.HasPrefix`. -/
def HasPrefix (s pre : Str) : Bool := pre.isPrefixOf s

/-- Go `strings.HasSuffix`. -/
def HasSuffix (s suf : Str) : Bool := suf.isSuffixOf s

/-- Go `strings.TrimPrefix`: `s` without the leading `pre`, or `s` itself. -/
def TrimPrefix (s pre : Str) : Str :=
  if HasPrefix s pre then s.drop pre.length else s

/-- Go `strings.TrimSuffix`: `s` without the trailing `suf`, or `s` itself. -/
def TrimSuffix (s suf : Str) : Str :=
  if HasSuffix s suf then s.take (s.length - suf.length) else s

/-- Go `strings.Contains`: `sub` occurs in `s` as a contiguous block. -/
def Contains : Str → Str → Bool
  | [], sub => HasPrefix [] sub
  | c :: s, sub => HasPrefix (c :: s) sub || Contains s sub

/-! ## Package `path` -/

/-- The inner loop of the `..` case of `path.Clean`,
`for out.w > dotdot && out.index(out.w) != '/' { out.w-- }`, on the reversed buffer:
`last` is the byte at index `out.w` and the list holds the bytes below it, last first. -/
def backtrackLoop (dotdot : Nat) : Char → List Char → List Char
  | _, [] => []
  | last, c :: rest =>
    if (c :: rest).length > dotdot && last != '/' then backtrackLoop dotdot c rest
    else c :: rest

/-- The `out.w > dotdot` branch of `path.Clean`: `out.w--` and then the inner loop.
The buffer is the list of bytes written so far (what `lazybuf.string` returns). -/
def backtrack (out : List Char) (dotdot : Nat) : List Char :=
  match out.reverse with
  | [] => []
  | last :: rest => (backtrackLoop dotdot last rest).reverse

/-- The inner loop of the default case of `path.Clean`,
`for ; r < n && path[r] != '/'; r++ { out.append(path[r]) }`:
returns the buffer and the unread input. -/
def copyElem : List Char → List Char → List Char × List Char
  | out, [] => (out, [])
  | out, c :: rest => if c != '/' then copyElem (out ++ [c]) rest else (out, c :: rest)

/-- The main loop `for r < n` of `path.Clean`. `rest` is `path[r:]`, `out` the bytes written
so far (`out.w = out.length`). Every iteration consumes input, so `rest.length` units of fuel
suffice; `none` only when the fuel runs out. -/
def cleanLoop (rooted : Bool) : Nat → List Char → List Char → Nat → Option (List Char)
  | _, [], out, _ => some out
  | 0, _ :: _, _, _ => none
  | fuel + 1, c :: rest, out, dotdot =>
    if c = '/' then
      -- empty path element
      cleanLoop rooted fuel rest out dotdot
    else if c = '.' ∧ (rest = [] ∨ rest.head? = some '/') then
      -- . element
      cleanLoop rooted fuel rest out dotdot
    else if c = '.' ∧ rest.head? = some '.' ∧
        (rest.tail = [] ∨ rest.tail.head? = some '/') then
      -- .. element: remove to last /
      if out.length > dotdot then
        cleanLoop rooted fuel rest.tail (backtrack out dotdot) dotdot
      else if !rooted then
        let out1 := if out.length > 0 then out ++ ['/'] else out
        let out2 := out1 ++ ['.', '.']
        cleanLoop rooted fuel rest.tail out2 out2.length
      else
        cleanLoop rooted fuel rest.tail out dotdot
    else
      -- real path element: add slash if needed, copy element
      let out1 :=
        if (rooted && out.length != 1) || (!rooted && out.length != 0) then out ++ ['/']
        else out
      let r := copyElem out1 (c :: rest)
      cleanLoop rooted fuel r.2 r.1 dotdot

/-- Go `path.Clean`. The loop is run with `path.length` units of fuel, which is always
enough, so the branch for `none` is never taken. -/
def Clean (path : Str) : Str :=
  match path with
  | [] => ['.']
  | c :: _ =>
    let rooted := c == '/'
    let r :=
      if rooted then cleanLoop rooted path.length path.tail ['/'] 1
      else cleanLoop rooted path.length path [] 0
    match r with
    | none => []
    | some out => if out.length = 0 then ['.'] else out

/-- The loop of `path.Join` that concatenates the non-empty leading elements with `/`. -/
def joinBuf : List Char → List Str → List Char
  | buf, [] => buf
  | buf, e :: es =>
    if buf.length > 0 || e != [] then
      joinBuf ((if buf.length > 0 then buf ++ ['/'] else buf) ++ e) es
    else joinBuf buf es

/-- Go `path.Join`. -/
def Join (elem : List Str) : Str :=
  if (elem.map List.length).sum = 0 then []
  else Clean (joinBuf [] elem)

/-- The index scan of `strings.LastIndexByte(path, '/')` as used by `path.Split`:
splits the reversed path at its first `/`, giving the reversed file part and the
reversed directory part (separator included). -/
def splitRev : List Char → List Char × List Char
  | [] => ([], [])
  | c :: rest =>
    if c = '/' then ([], c :: rest)
    else ((splitRev rest).1 ++ [c], (splitRev rest).2)

/-- Go `path.Split`: `(path[:i+1], path[i+1:])` for the last `/` at `i`,
and `("", path)` when there is none. -/
def Split (path : Str) : Str × Str :=
  let r := splitRev path.reverse
  (r.2.reverse, r.1)

/-- Go `path.Ext`: the suffix beginning at the final dot of the final element, scanning the
reversed path (`acc` is what has been passed). -/
def extRev : List Char → List Char → Str
  | _, [] => []
  | acc, c :: rest =>
    if c = '/' then []
    else if c = '.' then c :: acc
    else extRev (c :: acc) rest

/-- Go `path.Ext`. -/
def Ext (path : Str) : Str := extRev [] path.reverse

/-! ## Package `time`, `fmt`, `encoding/hex` -/

/-- A Go `time.Time`: the instant (seconds since the Unix epoch and nanoseconds within the
second) and the location it is displayed in. -/
structure Time where
  sec : Int
  nsec : Nat
  loc : Str
deriving DecidableEq, Repr

/-- Two's-complement wrap-around of `int64` arithmetic. -/
def wrapInt64 (x : Int) : Int := (x + 2 ^ 63) % 2 ^ 64 - 2 ^ 63

/-- Go `Time.UnixNano`: `unixSec*1e9 + nsec` in `int64`. -/
def Time.UnixNano (t : Time) : Int := wrapInt64 (t.sec * 1000000000 + t.nsec)

/-- Go `Time.After`. -/
def Time.After (t u : Time) : Bool :=
  decide (t.sec > u.sec) || (decide (t.sec = u.sec) && decide (t.nsec > u.nsec))

/-- The verb `%d` of `fmt.Sprintf` on an integer. -/
def formatInt : Int → Str
  | Int.ofNat n => Nat.toDigits 10 n
  | Int.negSucc n => '-' :: Nat.toDigits 10 (n + 1)

/-- The table `hextable` of `encoding/hex`. -/
def hextable : List Char := "0123456789abcdef".toList

/-- Go `hex.EncodeToString` on a list of bytes (values below 256): `hextable[v>>4]`,
`hextable[v&0x0f]`. -/
def hexEncode : List Nat → Str
  | [] => []
  | v :: vs => hextable.getD (v / 16 % 16) '0' :: hextable.getD (v % 16) '0' :: hexEncode vs

/-- The double quote character. -/
def dquote : Char := Char.ofNat 34

/-- Library functions the handler calls and that stay abstract. -/
structure Lib where
  /-- Go `sha1.Sum`: the digest bytes. -/
  sha1Sum : Str → List Nat
  /-- Go `t.UTC().Format(http.TimeFormat)`. -/
  formatHTTPTime : Time → Str
  /-- Go `time.Parse(http.TimeFormat, s)`; `none` when it returns an error. -/
  parseHTTPTime : Str → Option Time
  /-- Go `mime.TypeByExtension`. -/
  TypeByExtension : Str → Str

/-! ## `fs.go` -/

/-- The struct `Info`. -/
structure Info where
  Path : Str
  Name : Str
  IsDir : Bool
  Size : Int
  ModTime : Time
  ETag : Str
  PickCode : Str
deriving DecidableEq, Repr

/-! ## `internal/webdav/xml.go` -/

/-- The struct `webdav.ResourceType`; `Collection` is true when the pointer is set. -/
structure ResourceType where
  Collection : Bool
deriving DecidableEq, Repr

/-- The struct `webdav.Prop`. -/
structure DavProp where
  DisplayName : Str
  ContentLength : Str
  LastMod : Str
  GetETag : Str
  ResourceType : Option ResourceType
deriving DecidableEq, Repr

/-- The struct `webdav.PropStat`. -/
structure PropStat where
  prop : DavProp
  Status : Str
deriving DecidableEq, Repr

/-- The struct `webdav.DavResponse`. -/
structure DavResponse where
  Href : Str
  Propstat : PropStat
deriving DecidableEq, Repr

/-- The struct `webdav.MultiStatus`. -/
structure MultiStatus where
  XmlnsD : Str
  Response : List DavResponse
deriving DecidableEq, Repr

/-! ## Package `net/http` -/

/-- What a handler has written to the body, in order. -/
inductive BodyPart where
  /-- Plain bytes. -/
  | text (s : Str)
  /-- The XML encoding of a multi-status document. -/
  | xml (ms : MultiStatus)
deriving DecidableEq, Repr

/-- An `http.ResponseWriter`: header map, status code (0 until `WriteHeader`) and body. -/
structure ResponseWriter where
  header : List (Str × Str)
  status : Nat
  body : List BodyPart
deriving DecidableEq, Repr

/-- Go `Header.Set`. -/
def ResponseWriter.Set (w : ResponseWriter) (k v : Str) : ResponseWriter :=
  { w with header := w.header.filter (fun kv => kv.1 != k) ++ [(k, v)] }

/-- Go `Header.Del`. -/
def ResponseWriter.Del (w : ResponseWriter) (k : Str) : ResponseWriter :=
  { w with header := w.header.filter (fun kv => kv.1 != k) }

/-- Go `Header.Get`: the first value of the key, or the empty string. -/
def headerGet (h : List (Str × Str)) (k : Str) : Str :=
  match h.lookup k with
  | some v => v
  | none => []

/-- Go `ResponseWriter.WriteHeader`: a call after the status has been written is ignored. -/
def ResponseWriter.WriteHeader (w : ResponseWriter) (code : Nat) : ResponseWriter :=
  if w.status = 0 then { w with status := code } else w

/-- Go `ResponseWriter.Write`. -/
def ResponseWriter.Write (w : ResponseWriter) (b : BodyPart) : ResponseWriter :=
  { w with body := w.body ++ [b], status := if w.status = 0 then 200 else w.status }

/-- Go `http.Error`: drops `Content-Length`, sets the two headers, writes the status and the
message followed by a newline. -/
def httpError (w : ResponseWriter) (error : Str) (code : Nat) : ResponseWriter :=
  ((((w.Del "Content-Length".toList).Set "Content-Type".toList
      "text/plain; charset=utf-8".toList).Set
    "X-Content-Type-Options".toList "nosniff".toList).WriteHeader code).Write
    (.text (error ++ [Char.ofNat 10]))

/-- Go `http.NotFound`. -/
def httpNotFound (w : ResponseWriter) : ResponseWriter :=
  httpError w "404 page not found".toList 404

/-- The parts of an `http.Request` the handler reads. -/
structure Request where
  Method : Str
  URLPath : Str
  Header : List (Str × Str)
deriving DecidableEq, Repr

/-! ## `fs.go`: the interface `FS` -/

/-- The interface `FS`, over the state `σ` of the value that implements it. An error is
its message. -/
structure FS (σ : Type) where
  Stat : Str → σ → Except Str Info × σ
  ReadDir : Str → σ → Except Str (List Info) × σ
  Open : Str → σ → Except Str Info × σ
  /-- The method `ServeContent` when the dynamic type is `*Drive` (the type assertion
  `h.FS.(*Drive)` of `handleGetHead`); it returns the error and the writer it wrote to. -/
  ServeContent : Option (ResponseWriter → Request → Info → σ → (Option Str × ResponseWriter) × σ)

/-! ## `handler.go` -/

/-- The struct `Handler`. -/
structure Handler (σ : Type) where
  FS : FS σ
  BasePath : Str

/-- A call the handler made on its `FS`. -/
inductive Call where
  | Stat (p : Str)
  | ReadDir (p : Str)
  | ServeContent (info : Info)
deriving DecidableEq, Repr

/-- What a handler leaves behind: the response written, the calls made on the `FS`, in
order, and the state of the `FS`. -/
structure Outcome (σ : Type) where
  w : ResponseWriter
  calls : List Call
  fs : σ

/-- The function `quoteETag`. -/
def quoteETag (s : Str) : Str :=
  if HasPrefix s [dquote] && HasSuffix s [dquote] then s
  else [dquote] ++ s ++ [dquote]

/-- The method `Handler.ensureETag`. -/
def ensureETag (L : Lib) (info : Info) : Str :=
  if info.ETag != [] then quoteETag info.ETag
  else
    let sum := L.sha1Sum (formatInt info.Size ++ [':'] ++ formatInt info.ModTime.UnixNano)
    quoteETag (hexEncode sum)

variable {σ : Type}

/-- The method `Handler.cleanPath`. -/
def Handler.cleanPath (h : Handler σ) (urlPath : Str) : Str × Bool :=
  if h.BasePath != [] then
    if !HasPrefix urlPath h.BasePath then ([], false)
    else (Join ["/".toList, TrimPrefix urlPath h.BasePath], true)
  else (Join ["/".toList, urlPath], true)

/-- The method `Handler.toHref`. -/
def Handler.toHref (h : Handler σ) (p : Str) (isDir : Bool) : Str :=
  let href := Join ["/".toList, h.BasePath, p]
  if isDir && href != "/".toList then href ++ "/".toList else href

/-- The method `Handler.makeResponse`. -/
def Handler.makeResponse (L : Lib) (h : Handler σ) (info : Info) : DavResponse :=
  let href := h.toHref info.Path info.IsDir
  let etag := ensureETag L info
  let props : DavProp :=
    { DisplayName := info.Name, ContentLength := [], GetETag := etag,
      LastMod := L.formatHTTPTime info.ModTime, ResourceType := none }
  let props : DavProp :=
    if info.IsDir then { props with ResourceType := some { Collection := true } }
    else { props with ContentLength := formatInt info.Size,
                      ResourceType := some { Collection := false } }
  { Href := href, Propstat := { prop := props, Status := "HTTP/1.1 200 OK".toList } }

/-- The method `Handler.handleOptions`. -/
def Handler.handleOptions (_h : Handler σ) (w : ResponseWriter) : ResponseWriter :=
  (((w.Set "DAV".toList "1".toList).Set "MS-Author-Via".toList "DAV".toList).Set
    "Allow".toList "OPTIONS, GET, HEAD, PROPFIND".toList).WriteHeader 204

/-- The method `Handler.handleGetHead`. -/
def Handler.handleGetHead (L : Lib) (h : Handler σ) (w : ResponseWriter) (r : Request)
    (s : σ) : Outcome σ :=
  let c := h.cleanPath r.URLPath
  if !c.2 then ⟨httpError w "bad path".toList 400, [], s⟩
  else
    let p := c.1
    match h.FS.Stat p s with
    | (.error _, s1) => ⟨httpNotFound w, [.Stat p], s1⟩
    | (.ok info, s1) =>
      if info.IsDir then ⟨httpError w "bad method".toList 405, [.Stat p], s1⟩
      else
        let etag := ensureETag L info
        let lastMod := L.formatHTTPTime info.ModTime
        let w1 := ((w.Set "ETag".toList etag).Set "Last-Modified".toList lastMod).Set
          "Accept-Ranges".toList "bytes".toList
        let inm := headerGet r.Header "If-None-Match".toList
        if inm != [] && Contains inm etag then ⟨w1.WriteHeader 304, [.Stat p], s1⟩
        else
          let ims := headerGet r.Header "If-Modified-Since".toList
          let notModified :=
            ims != [] &&
              (match L.parseHTTPTime ims with
               | some t => !info.ModTime.After t
               | none => false)
          if notModified then ⟨w1.WriteHeader 304, [.Stat p], s1⟩
          else
            let contentType := L.TypeByExtension (Ext info.Name)
            let contentType :=
              if contentType = [] then "application/octet-stream".toList else contentType
            let w2 := w1.Set "Content-Type".toList contentType
            match h.FS.ServeContent with
            | some serve =>
              match serve w2 r info s1 with
              | ((some err, w3), s2) =>
                ⟨httpError w3 err 500, [.Stat p, .ServeContent info], s2⟩
              | ((none, w3), s2) => ⟨w3, [.Stat p, .ServeContent info], s2⟩
            | none => ⟨httpError w2 "file not readable".toList 500, [.Stat p], s1⟩

/-- The loop `for _, v := range children` of `handlePropfind`. -/
def Handler.appendResponses (L : Lib) (h : Handler σ) :
    List DavResponse → List Info → List DavResponse
  | responses, [] => responses
  | responses, v :: children =>
    Handler.appendResponses L h (responses ++ [h.makeResponse L v]) children

/-- The constant `webdav.XmlHeader`. -/
def XmlHeader : Str :=
  "<?xml version=".toList ++ [dquote] ++ "1.0".toList ++ [dquote] ++ " encoding=".toList ++
    [dquote] ++ "UTF-8".toList ++ [dquote] ++ "?>".toList

/-- The tail of `handlePropfind` from `responses := ...` on: builds and writes the
multi-status document. -/
def Handler.writeMultiStatus (L : Lib) (h : Handler σ) (w : ResponseWriter) (root : Info)
    (children : List Info) : ResponseWriter :=
  let responses := Handler.appendResponses L h [h.makeResponse L root] children
  let ms : MultiStatus := { XmlnsD := "DAV:".toList, Response := responses }
  (((w.Set "Content-Type".toList
      ("application/xml; charset=".toList ++ [dquote] ++ "utf-8".toList ++ [dquote])).WriteHeader
      207).Write (.text XmlHeader)).Write (.xml ms)

/-- The method `Handler.handlePropfind`. -/
def Handler.handlePropfind (L : Lib) (h : Handler σ) (w : ResponseWriter) (r : Request)
    (s : σ) : Outcome σ :=
  let c := h.cleanPath r.URLPath
  if !c.2 then ⟨httpError w "bad path".toList 400, [], s⟩
  else
    let p := c.1
    let depth := headerGet r.Header "Depth".toList
    let depth := if depth = [] then "1".toList else depth
    if depth != "0".toList && depth != "1".toList then
      ⟨httpError w "bad depth".toList 403, [], s⟩
    else
      match h.FS.Stat p s with
      | (.error _, s1) => ⟨httpNotFound w, [.Stat p], s1⟩
      | (.ok root, s1) =>
        if root.IsDir && depth == "1".toList then
          match h.FS.ReadDir p s1 with
          | (.error _, s2) =>
            ⟨httpError w "read dir failed".toList 500, [.Stat p, .ReadDir p], s2⟩
          | (.ok children, s2) =>
            ⟨h.writeMultiStatus L w root children, [.Stat p, .ReadDir p], s2⟩
        else ⟨h.writeMultiStatus L w root [], [.Stat p], s1⟩

/-- The method `Handler.ServeHTTP`. -/
def Handler.ServeHTTP (L : Lib) (h : Handler σ) (w : ResponseWriter) (r : Request)
    (s : σ) : Outcome σ :=
  if r.Method = "OPTIONS".toList then ⟨h.handleOptions w, [], s⟩
  else if r.Method = "GET".toList ∨ r.Method = "HEAD".toList then h.handleGetHead L w r s
  else if r.Method = "PROPFIND".toList then h.handlePropfind L w r s
  else
    ⟨httpError (w.Set "Allow".toList "OPTIONS, GET, HEAD, PROPFIND".toList)
      "method not allowed".toList 405, [], s⟩

/-! ## `patrickmn/go-cache` -/

/-- A value held in the cache (an `any` in the source): a directory listing or a
download URL. -/
inductive CacheVal where
  | infos (l : List Info)
  | url (s : Str)
deriving DecidableEq, Repr

/-- The struct `cache.Item`: `Expiration` is in Unix nanoseconds, 0 for no expiry. -/
structure Item where
  Object : CacheVal
  Expiration : Int
deriving DecidableEq, Repr

/-- The normalisation of the default expiration in `cache.New`: 0 becomes
`NoExpiration` (-1). -/
def cacheNewExpiration (de : Int) : Int := if de = 0 then -1 else de

/-! ## `drive.go`, `cache.go` -/

/-- The fields of `driver.File` that `ReadDir` reads. -/
structure File where
  Name : Str
  IsDirectory : Bool
  Size : Int
  UpdateTime : Time
  Sha1 : Str
  PickCode : Str
deriving DecidableEq, Repr

/-- What lies outside the process, over its state `ω`: the upstream client
(`driver.Pan115Client`), the wait of the rate limiter, `url.Parse` and the reverse proxy. -/
structure Env (ω : Type) where
  /-- Go `client.DirName2CID`: the category id, or an error. -/
  DirName2CID : Str → ω → Except Str Str × ω
  /-- Go `client.List`. -/
  List : Str → ω → Except Str (List File) × ω
  /-- Go `client.Download`: the download URL, or an error. -/
  Download : Str → ω → Except Str Str × ω
  /-- Go `limiter.Wait` under the 10 second timeout: true when it returns no error. -/
  Wait : ω → Bool × ω
  /-- Go `time.Now().UnixNano()`: the reading of the clock, in Unix nanoseconds. The clock
  belongs to the world, so every wait and every upstream call may move it. -/
  Now : ω → Nat
  /-- Go `url.Parse`: the parsed URL, or an error. -/
  ParseURL : Str → Except Str Str
  /-- Go `reverseProxy.ServeHTTP` towards the given URL. -/
  Proxy : Str → Request → ResponseWriter → ω → ResponseWriter × ω

/-- What the resolver did outside its own memory, and on its cache. -/
inductive Event where
  | wait (ok : Bool)
  | dirName2CID (p : Str)
  | list (dirID : Str)
  | download (pickCode : Str)
  | proxy (url : Str)
  | cacheGet (key : Str)
  | cacheSet (key : Str)
deriving DecidableEq, Repr

/-- The struct `Drive` as a state: the world behind `client`, `limiter`, `reverseProxy`
and the clock, the cache (`items` and `defaultExpiration`) and the events so far. -/
structure Drive (ω : Type) where
  world : ω
  hasLimiter : Bool
  defaultExpiration : Int
  items : List (Str × Item)
  log : List Event
deriving DecidableEq, Repr

/-- The struct `DriveConfig`, the fields `newDrive` uses for the cache and the limiter. -/
structure DriveConfig where
  Rate : Int
  CacheExpire : Int

variable {ω : Type}

/-- The function `newDrive` once the login check has passed: a limiter, and an empty cache
with default expiration `time.Duration(conf.CacheExpire) * time.Minute`, a product in
`int64`. -/
def newDrive (conf : DriveConfig) (world : ω) : Drive ω :=
  { world := world, hasLimiter := true,
    defaultExpiration := cacheNewExpiration (wrapInt64 (conf.CacheExpire * 60000000000)),
    items := [], log := [] }

/-- Go `cache.Get`: the object under the key unless absent or expired at the reading of the
clock taken inside the call. -/
def Drive.cacheGet (E : Env ω) (d : Drive ω) (k : Str) : Option CacheVal × Drive ω :=
  let d1 := { d with log := d.log ++ [.cacheGet k] }
  match d.items.lookup k with
  | none => (none, d1)
  | some item =>
    if item.Expiration > 0 then
      if (E.Now d.world : Int) > item.Expiration then (none, d1) else (some item.Object, d1)
    else (some item.Object, d1)

/-- Go `cache.Set(k, x, cache.DefaultExpiration)`: with a positive default expiration `d`
the entry is stamped `time.Now().Add(d).UnixNano()`, read from the clock inside the call and
computed in `int64`; otherwise it is stamped 0 and never expires. -/
def Drive.cacheSet (E : Env ω) (d : Drive ω) (k : Str) (x : CacheVal) : Drive ω :=
  let dur := d.defaultExpiration
  let e : Int := if dur > 0 then wrapInt64 ((E.Now d.world : Int) + dur) else 0
  { d with items := (k, { Object := x, Expiration := e }) :: d.items.filter (fun kv => kv.1 != k),
           log := d.log ++ [.cacheSet k] }

/-- The method `Drive.cacheKeyDir`. -/
def cacheKeyDir (path : Str) : Str := "dir:".toList ++ path

/-- The method `Drive.cacheKeyDownload`. -/
def cacheKeyDownload (pickCode : Str) : Str := "download:".toList ++ pickCode

/-- The method `Drive.checkRateLimit`; `fn` returns its result along with the error. -/
def Drive.checkRateLimit {α : Type} (E : Env ω) (fn : Drive ω → Except Str α × Drive ω)
    (d : Drive ω) : Except Str α × Drive ω :=
  if d.hasLimiter then
    let r := E.Wait d.world
    let d1 := { d with world := r.2, log := d.log ++ [.wait r.1] }
    if !r.1 then (.error "rate limit exceeded".toList, d1) else fn d1
  else fn d

/-- The method `Drive.fetchCache`. -/
def Drive.fetchCache (E : Env ω) (key : Str) (fn : Drive ω → Except Str CacheVal × Drive ω)
    (d : Drive ω) : Except Str CacheVal × Drive ω :=
  match d.cacheGet E key with
  | (some cached, d1) => (.ok cached, d1)
  | (none, d1) =>
    match Drive.checkRateLimit E fn d1 with
    | (.error err, d2) => (.error err, d2)
    | (.ok result, d2) => (.ok result, d2.cacheSet E key result)

/-- The loop of `ReadDir` that turns the upstream records into `Info` values. -/
def toInfos (p : Str) : List File → List Info
  | [] => []
  | f :: files =>
    { Path := Join [p, f.Name], Name := f.Name, IsDir := f.IsDirectory, Size := f.Size,
      ModTime := f.UpdateTime, ETag := f.Sha1, PickCode := f.PickCode } :: toInfos p files

/-- The closure `ReadDir` passes to `fetchCache`: resolve the directory id, list it through
the rate limiter, build the `Info` values. -/
def Drive.listDir (E : Env ω) (p : Str) (d : Drive ω) : Except Str CacheVal × Drive ω :=
  let r := E.DirName2CID p d.world
  let d1 := { d with world := r.2, log := d.log ++ [.dirName2CID p] }
  let dirID : Str :=
    match r.1 with
    | .ok cid => cid
    | .error _ => "0".toList
  let list : Drive ω → Except Str (List File) × Drive ω := fun d =>
    let l := E.List dirID d.world
    (l.1, { d with world := l.2, log := d.log ++ [.list dirID] })
  match Drive.checkRateLimit E list d1 with
  | (.error err, d2) => (.error ("list files failed: ".toList ++ err), d2)
  | (.ok files, d2) => (.ok (.infos (toInfos p files)), d2)

/-- The method `Drive.ReadDir`. A cached value that is not a listing makes the type
assertion `result.([]*Info)` panic, rendered as an error. -/
def Drive.ReadDir (E : Env ω) (p : Str) (d : Drive ω) : Except Str (List Info) × Drive ω :=
  let p := Join ["/".toList, p]
  match Drive.fetchCache E (cacheKeyDir p) (Drive.listDir E p) d with
  | (.error err, d1) => (.error err, d1)
  | (.ok (.infos l), d1) => (.ok l, d1)
  | (.ok (.url _), d1) => (.error "panic: interface conversion".toList, d1)

/-- The loop `for _, f := range files` of `Stat`. -/
def statScan (name : Str) : List Info → Except Str Info
  | [] => .error "file not found".toList
  | f :: files => if f.Name = name then .ok f else statScan name files

/-- The method `Drive.Stat`. -/
def Drive.Stat (E : Env ω) (p : Str) (d : Drive ω) : Except Str Info × Drive ω :=
  let p := Join ["/".toList, p]
  if p = "/".toList then
    (.ok { Path := "/".toList, Name := "/".toList, IsDir := true, Size := 0,
           ModTime := { sec := (E.Now d.world / 1000000000 : Nat),
                        nsec := E.Now d.world % 1000000000, loc := "Local".toList },
           ETag := [], PickCode := [] }, d)
  else
    let dn := Split (TrimSuffix p "/".toList)
    match Drive.ReadDir E dn.1 d with
    | (.error err, d1) => (.error err, d1)
    | (.ok files, d1) => (statScan dn.2 files, d1)

/-- The method `Drive.Open`. -/
def Drive.Open (E : Env ω) (p : Str) (d : Drive ω) : Except Str Info × Drive ω :=
  Drive.Stat E p d

/-- The method `Drive.ServeContent`. -/
def Drive.ServeContent (E : Env ω) (w : ResponseWriter) (r : Request) (info : Info)
    (d : Drive ω) : (Option Str × ResponseWriter) × Drive ω :=
  if info.PickCode = [] then ((some "pick code not found".toList, w), d)
  else
    let fn : Drive ω → Except Str CacheVal × Drive ω := fun d =>
      let dl := E.Download info.PickCode d.world
      let d1 := { d with world := dl.2, log := d.log ++ [.download info.PickCode] }
      match dl.1 with
      | .error err => (.error ("download failed: ".toList ++ err), d1)
      | .ok u => (.ok (.url u), d1)
    match Drive.fetchCache E (cacheKeyDownload info.PickCode) fn d with
    | (.error err, d1) => ((some err, w), d1)
    | (.ok (.infos _), d1) => ((some "panic: interface conversion".toList, w), d1)
    | (.ok (.url u), d1) =>
      match E.ParseURL u with
      | .error err => ((some ("invalid download URL: ".toList ++ err), w), d1)
      | .ok du =>
        let pr := E.Proxy du r w d1.world
        ((none, pr.1), { d1 with world := pr.2, log := d1.log ++ [.proxy du] })

/-- The value `*Drive` seen through the interface `FS`. -/
def Drive.toFS (E : Env ω) : FS (Drive ω) :=
  { Stat := Drive.Stat E, ReadDir := Drive.ReadDir E, Open := Drive.Open E,
    ServeContent := some (Drive.ServeContent E) }

/-! ## Sample values -/

/-- A sample instance of the library functions. -/
def demoLib : Lib :=
  { sha1Sum := fun s => [s.length % 256, 171],
    formatHTTPTime := fun t => formatInt t.sec,
    parseHTTPTime := fun _ => none,
    TypeByExtension := fun _ => [] }

/-- The state of the sample world: how many waits the limiter still grants, whether the
upstream listing answers, and the clock. -/
structure DemoWorld where
  tokens : Nat
  listOk : Bool
  clock : Nat
deriving DecidableEq, Repr

/-- The listing the sample upstream returns: a file and a directory. -/
def demoFiles : List File :=
  [ { Name := "a.txt".toList, IsDirectory := false, Size := 5,
      UpdateTime := { sec := 1700000000, nsec := 0, loc := "UTC".toList },
      Sha1 := "ABCDEF".toList, PickCode := "pc1".toList },
    { Name := "docs".toList, IsDirectory := true, Size := 0,
      UpdateTime := { sec := 1700000001, nsec := 7, loc := "UTC".toList },
      Sha1 := [], PickCode := [] } ]

/-- A sample world: the limiter grants `tokens` waits, each taking a second, and refuses
after ten seconds; the listing takes two seconds and fails unless `listOk`. -/
def demoEnv : Env DemoWorld :=
  { DirName2CID := fun _ w => (.error "no such dir".toList, w),
    List := fun _ w =>
      (if w.listOk then .ok demoFiles else .error "upstream down".toList,
        { w with clock := w.clock + 2000000000 }),
    Download := fun _ w => (.ok "https://cdn.example/x".toList, w),
    Wait := fun w =>
      if w.tokens = 0 then (false, { w with clock := w.clock + 10000000000 })
      else (true, { w with tokens := w.tokens - 1, clock := w.clock + 1000000000 }),
    Now := fun w => w.clock,
    ParseURL := fun u => .ok u,
    Proxy := fun _ _ rw w => (rw.WriteHeader 200, w) }

/-- A fresh sample drive: cache expiry one minute, clock at `now`. -/
def demoDrive (tokens : Nat) (listOk : Bool) (now : Nat) : Drive DemoWorld :=
  newDrive { Rate := 3, CacheExpire := 1 } { tokens := tokens, listOk := listOk, clock := now }

/-- A sample handler over the sample drive. -/
def demoHandler (base : Str) : Handler (Drive DemoWorld) :=
  { FS := Drive.toFS demoEnv, BasePath := base }

/-- A response writer nothing has been written to. -/
def freshWriter : ResponseWriter := { header := [], status := 0, body := [] }

/-! ## Counting upstream calls -/

/-- The number of calls of `client.List` among the events. -/
def listCalls (log : List Event) : Nat :=
  log.countP (fun e => match e with
    | .list _ => true
    | _ => false)

/-- Whether the limiter lets a `ReadDir` of the cleaned path `p` that misses the cache
through: there is no limiter, or the wait of `fetchCache` and the wait before `client.List`
both succeed. -/
def limiterAllows (E : Env ω) (p : Str) (d : Drive ω) : Bool :=
  !d.hasLimiter ||
    ((E.Wait d.world).1 && (E.Wait (E.DirName2CID p (E.Wait d.world).2).2).1)

/-! ## Specification of `path.Clean` on rooted paths -/

/-- A path element `path.Clean` keeps: not empty, without `/`, neither `.` nor `..`. -/
def GoodSeg (s : List Char) : Prop := s ≠ [] ∧ '/' ∉ s ∧ s ≠ ['.'] ∧ s ≠ ['.', '.']

/-- The elements, each behind a `/`. -/
def segsJoin : List (List Char) → List Char
  | [] => []
  | s :: ss => '/' :: s ++ segsJoin ss

/-- The rooted path with the given elements; the root itself when there are none. -/
def render : List (List Char) → List Char
  | [] => ['/']
  | s :: ss => segsJoin (s :: ss)

/-- The pieces of a path between its `/` bytes. -/
def splitSlash : List Char → List (List Char)
  | [] => [[]]
  | c :: t =>
    if c = '/' then [] :: splitSlash t
    else
      match splitSlash t with
      | [] => [[c]]
      | s :: ss => (c :: s) :: ss

/-- Lexical processing of the pieces of a rooted path on a stack of kept elements: empty
pieces and `.` are skipped, `..` drops the last kept element (if any), any other piece is
kept. -/
def cleanStack : List (List Char) → List (List Char) → List (List Char)
  | [], stk => stk
  | seg :: segs, stk =>
    if seg = [] ∨ seg = ['.'] then cleanStack segs stk
    else if seg = ['.', '.'] then cleanStack segs stk.dropLast
    else cleanStack segs (stk ++ [seg])

/-- A cleaned absolute path: it begins with `/` and is `/` itself or has, after the
leading `/`, only pieces that are not empty, not `.` and not `..`. -/
def IsCleanAbs (r : Str) : Prop :=
  r.head? = some '/' ∧
    (r = ['/'] ∨ ∀ s ∈ splitSlash r.tail, s ≠ [] ∧ s ≠ ['.'] ∧ s ≠ ['.', '.'])

/-! ## Lemmas on `path.Clean` -/

theorem copyElem_eq (rest : List Char) : ∀ out : List Char,
    copyElem out rest =
      (out ++ rest.takeWhile (fun c => c != '/'), rest.dropWhile (fun c => c != '/')) := by
  induction rest with
  | nil => intro out; simp [copyElem]
  | cons c rest ih =>
    intro out
    by_cases hc : c = '/'
    · subst hc; simp [copyElem]
    · simp [copyElem, hc, ih, List.takeWhile_cons, List.dropWhile_cons]

theorem splitSlash_ne_nil (l : List Char) : splitSlash l ≠ [] := by
  induction l with
  | nil => simp [splitSlash]
  | cons c t ih =>
    by_cases hc : c = '/'
    · simp [splitSlash, hc]
    · cases h : splitSlash t with
      | nil => exact absurd h ih
      | cons s ss => simp [splitSlash, hc, h]

theorem splitSlash_append_slash (a b : List Char) :
    splitSlash (a ++ '/' :: b) = splitSlash a ++ splitSlash b := by
  induction a with
  | nil => simp [splitSlash]
  | cons c a ih =>
    by_cases hc : c = '/'
    · simp [splitSlash, hc, ih]
    · cases h : splitSlash a with
      | nil => exact absurd h (splitSlash_ne_nil a)
      | cons s ss => simp [splitSlash, hc, ih, h]

theorem splitSlash_noslash (s : List Char) (hs : '/' ∉ s) : splitSlash s = [s] := by
  induction s with
  | nil => simp [splitSlash]
  | cons c t ih =>
    have hc : c ≠ '/' := fun h => hs (by simp [h])
    have ht : '/' ∉ t := fun h => hs (by simp [h])
    simp [splitSlash, hc, ih ht]

theorem splitSlash_mem_noslash (l : List Char) : ∀ s ∈ splitSlash l, '/' ∉ s := by
  induction l with
  | nil => simp [splitSlash]
  | cons c t ih =>
    by_cases hc : c = '/'
    · intro s hs
      simp [splitSlash, hc] at hs
      rcases hs with rfl | hs
      · simp
      · exact ih s hs
    · cases h : splitSlash t with
      | nil => exact absurd h (splitSlash_ne_nil t)
      | cons s0 ss =>
        intro s hs
        simp [splitSlash, hc, h] at hs
        rw [h] at ih
        rcases hs with rfl | hs
        · have := ih s0 (by simp)
          simp [this, Ne.symm hc]
        · exact ih s (by simp [hs])

theorem cleanStack_cons (w : List Char) (ss stk : List (List Char)) :
    cleanStack (w :: ss) stk = cleanStack ss (cleanStack [w] stk) := by
  simp only [cleanStack]
  split_ifs <;> rfl

theorem cleanStack_append (xs ys stk : List (List Char)) :
    cleanStack (xs ++ ys) stk = cleanStack ys (cleanStack xs stk) := by
  induction xs generalizing stk with
  | nil => simp [cleanStack]
  | cons x xs ih =>
    rw [List.cons_append, cleanStack_cons, ih, cleanStack_cons x xs]

theorem cleanStack_split_seg (w rest : List Char) (hw : '/' ∉ w)
    (hr : rest = [] ∨ rest.head? = some '/') (stk : List (List Char)) :
    cleanStack (splitSlash (w ++ rest)) stk =
      cleanStack (splitSlash rest) (cleanStack [w] stk) := by
  rcases hr with rfl | hr
  · simp [splitSlash_noslash w hw, splitSlash, cleanStack]
  · cases rest with
    | nil => simp at hr
    | cons c t =>
      simp at hr
      subst hr
      rw [splitSlash_append_slash, splitSlash_noslash w hw, List.singleton_append,
        cleanStack_cons]
      simp [splitSlash, cleanStack]


theorem segsJoin_append (a b : List (List Char)) :
    segsJoin (a ++ b) = segsJoin a ++ segsJoin b := by
  induction a with
  | nil => simp [segsJoin]
  | cons s a ih => simp [segsJoin, ih]

theorem segsJoin_eq_nil (stk : List (List Char)) : segsJoin stk = [] ↔ stk = [] := by
  cases stk <;> simp [segsJoin]

theorem render_of_ne_nil (stk : List (List Char)) (h : stk ≠ []) :
    render stk = segsJoin stk := by
  cases stk with
  | nil => exact absurd rfl h
  | cons s ss => rfl

theorem render_snoc (stk : List (List Char)) (w : List Char) :
    render (stk ++ [w]) = segsJoin stk ++ '/' :: w := by
  rw [render_of_ne_nil _ (by simp), segsJoin_append]
  simp [segsJoin]

theorem render_length_one (stk : List (List Char)) (hstk : ∀ s ∈ stk, GoodSeg s) :
    (render stk).length = 1 ↔ stk = [] := by
  cases stk with
  | nil => simp [render]
  | cons s ss =>
    have hs : s ≠ [] := (hstk s (by simp)).1
    have : 0 < s.length := List.length_pos.mpr hs
    simp only [render, segsJoin, List.length_cons, List.length_append]
    constructor
    · intro h; omega
    · intro h; simp at h

theorem backtrackLoop_seg (v : List Char) : ∀ (last : Char) (Y : List Char),
    '/' ∉ v → last ≠ '/' →
    backtrackLoop 1 last (v ++ '/' :: Y) = if Y = [] then ['/'] else Y := by
  induction v with
  | nil =>
    intro last Y _ hl
    cases Y with
    | nil => simp [backtrackLoop]
    | cons y Y => simp [backtrackLoop, hl]
  | cons c v ih =>
    intro last Y hv hl
    have hc : c ≠ '/' := fun h => hv (by simp [h])
    have hv' : '/' ∉ v := fun h => hv (by simp [h])
    simp [backtrackLoop, hl, ih c Y hv' hc]

theorem backtrack_snoc (stk : List (List Char)) (w : List Char) (hw : GoodSeg w) :
    backtrack (render (stk ++ [w])) 1 = render stk := by
  obtain ⟨hne, hns, _, _⟩ := hw
  obtain ⟨w', l, rfl⟩ : ∃ w' l, w = w' ++ [l] :=
    ⟨w.dropLast, w.getLast hne, (List.dropLast_append_getLast hne).symm⟩
  have hl : l ≠ '/' := fun h => hns (by simp [h])
  have hw' : '/' ∉ w'.reverse := fun h => hns (by simp at h; simp [h])
  rw [render_snoc]
  have hrev : (segsJoin stk ++ '/' :: (w' ++ [l])).reverse
      = l :: (w'.reverse ++ '/' :: (segsJoin stk).reverse) := by simp
  simp only [backtrack, hrev]
  rw [backtrackLoop_seg _ _ _ hw' hl]
  cases stk with
  | nil => simp [segsJoin, render]
  | cons s ss => simp [segsJoin, render]


theorem dropWhile_head (rest : List Char) :
    rest.dropWhile (fun c => c != '/') = [] ∨
      (rest.dropWhile (fun c => c != '/')).head? = some '/' := by
  induction rest with
  | nil => simp
  | cons c rest ih =>
    by_cases hc : c = '/'
    · subst hc; simp [List.dropWhile_cons]
    · simpa [List.dropWhile_cons, hc] using ih

theorem takeWhile_noslash (rest : List Char) : '/' ∉ rest.takeWhile (fun c => c != '/') := by
  intro h
  have := List.mem_takeWhile_imp h
  simp at this

theorem dropWhile_length_le (rest : List Char) :
    (rest.dropWhile (fun c => c != '/')).length ≤ rest.length := by
  induction rest with
  | nil => simp
  | cons c rest ih =>
    simp only [List.dropWhile_cons]
    split_ifs
    · simp; omega
    · simp

theorem takeWhile_eq_nil_imp (rest : List Char)
    (h : rest.takeWhile (fun c => c != '/') = []) : rest = [] ∨ rest.head? = some '/' := by
  cases rest with
  | nil => simp
  | cons c rest =>
    by_cases hc : c = '/'
    · simp [hc]
    · simp [List.takeWhile_cons, hc] at h

theorem cleanStack_good (segs : List (List Char)) : ∀ stk : List (List Char),
    (∀ s ∈ segs, '/' ∉ s) → (∀ s ∈ stk, GoodSeg s) → ∀ s ∈ cleanStack segs stk, GoodSeg s := by
  induction segs with
  | nil => intro stk _ hstk; simpa [cleanStack] using hstk
  | cons seg segs ih =>
    intro stk hsegs hstk
    have hsegs' : ∀ s ∈ segs, '/' ∉ s := fun s hs => hsegs s (by simp [hs])
    simp only [cleanStack]
    split_ifs with h1 h2
    · exact ih stk hsegs' hstk
    · exact ih _ hsegs' (fun s hs => hstk s (List.dropLast_subset _ hs))
    · refine ih _ hsegs' (fun s hs => ?_)
      rcases List.mem_append.mp hs with hs | hs
      · exact hstk s hs
      · simp at hs
        subst hs
        exact ⟨fun h => h1 (Or.inl h), hsegs s (by simp), fun h => h1 (Or.inr h), h2⟩

/-- The main loop of `path.Clean` ends within `rest.length` iterations, rooted or not. -/
theorem cleanLoop_isSome (rooted : Bool) : ∀ (fuel : Nat) (rest out : List Char) (dotdot : Nat),
    rest.length ≤ fuel → (cleanLoop rooted fuel rest out dotdot).isSome = true := by
  intro fuel
  induction fuel with
  | zero =>
    intro rest out dotdot hlen
    have : rest = [] := by simpa using hlen
    subst this
    simp [cleanLoop]
  | succ fuel ih =>
    intro rest out dotdot hlen
    cases rest with
    | nil => simp [cleanLoop]
    | cons c rest =>
      have hlen1 : rest.length ≤ fuel := by simpa using hlen
      have hlen2 : rest.tail.length ≤ fuel := by
        simp only [List.length_tail]; omega
      have hlen3 : c ≠ '/' → ∀ o, (copyElem o (c :: rest)).2.length ≤ fuel := by
        intro hc o
        rw [copyElem_eq]
        have hd : (c :: rest).dropWhile (fun c => c != '/') =
            rest.dropWhile (fun c => c != '/') := by
          simp [List.dropWhile_cons, hc]
        rw [hd]
        exact le_trans (dropWhile_length_le rest) hlen1
      simp only [cleanLoop]
      split_ifs
      all_goals first
        | exact ih _ _ _ hlen1
        | exact ih _ _ _ hlen2
        | exact ih _ _ _ (hlen3 (by assumption) _)

theorem cleanLoop_dotdot_rooted (fuel : Nat) (rest2 out : List Char)
    (hr : rest2 = [] ∨ rest2.head? = some '/') :
    cleanLoop true (fuel + 1) ('.' :: '.' :: rest2) out 1 =
      if out.length > 1 then cleanLoop true fuel rest2 (backtrack out 1) 1
      else cleanLoop true fuel rest2 out 1 := by
  simp [cleanLoop, hr]

/-- On a rooted path the main loop of `path.Clean` computes the lexical processing of the
pieces of its input, and `rest.length` units of fuel suffice. -/
theorem cleanLoop_rooted : ∀ (fuel : Nat) (rest : List Char) (stk : List (List Char)),
    rest.length ≤ fuel → (∀ s ∈ stk, GoodSeg s) →
    cleanLoop true fuel rest (render stk) 1 =
      some (render (cleanStack (splitSlash rest) stk)) := by
  intro fuel
  induction fuel with
  | zero =>
    intro rest stk hlen _
    have : rest = [] := by simpa using hlen
    subst this
    simp [cleanLoop, splitSlash, cleanStack]
  | succ fuel ih =>
    intro rest stk hlen hstk
    cases rest with
    | nil => simp [cleanLoop, splitSlash, cleanStack]
    | cons c rest =>
      have hlen' : rest.length ≤ fuel := by simpa using hlen
      by_cases h1 : c = '/'
      · subst h1
        simp [cleanLoop, ih rest stk hlen' hstk, splitSlash, cleanStack]
      · by_cases h2 : c = '.' ∧ (rest = [] ∨ rest.head? = some '/')
        · have e := cleanStack_split_seg ['.'] rest (by simp) h2.2 stk
          simp only [List.singleton_append] at e
          obtain ⟨rfl, hr⟩ := h2
          rw [e]
          simp only [cleanLoop, h1, if_false, hr, and_self, if_true]
          rw [ih rest stk hlen' hstk]
          simp [cleanStack]
        · by_cases h3 : c = '.' ∧ rest.head? = some '.' ∧
              (rest.tail = [] ∨ rest.tail.head? = some '/')
          · obtain ⟨rfl, hd, hr⟩ := h3
            cases rest with
            | nil => simp at hd
            | cons c2 rest2 =>
              simp at hd
              subst hd
              have hlen2 : rest2.length ≤ fuel := by simp at hlen'; omega
              have e := cleanStack_split_seg ['.', '.'] rest2 (by simp) hr stk
              have e2 : ['.', '.'] ++ rest2 = '.' :: '.' :: rest2 := rfl
              rw [e2] at e
              rw [e]
              have hcs : cleanStack [['.', '.']] stk = stk.dropLast := by
                simp [cleanStack]
              rw [hcs]
              have hgood : ∀ s ∈ stk.dropLast, GoodSeg s :=
                fun s hs => hstk s (List.dropLast_subset _ hs)
              rw [cleanLoop_dotdot_rooted fuel rest2 _ hr]
              by_cases hnil : stk = []
              · subst hnil
                simp only [render, List.length_singleton, gt_iff_lt, lt_irrefl, if_false]
                simpa [render] using ih rest2 [] hlen2 (by simp)
              · have hlt : (render stk).length > 1 := by
                  have h1' := (render_length_one stk hstk).not.mpr hnil
                  have h0 : 0 < (render stk).length := by
                    cases stk <;> simp [render, segsJoin]
                  omega
                obtain ⟨stk', w, rfl⟩ : ∃ stk' w, stk = stk' ++ [w] :=
                  ⟨stk.dropLast, stk.getLast hnil, (List.dropLast_append_getLast hnil).symm⟩
                rw [if_pos hlt, backtrack_snoc stk' w (hstk w (by simp))]
                simp only [List.dropLast_concat] at hgood ⊢
                exact ih rest2 stk' hlen2 hgood
          · -- real path element
            have hsplit : c :: rest = (c :: rest).takeWhile (fun c => c != '/') ++
                (c :: rest).dropWhile (fun c => c != '/') :=
              (List.takeWhile_append_dropWhile _ _).symm
            have hw : (c :: rest).takeWhile (fun c => c != '/') =
                c :: rest.takeWhile (fun c => c != '/') := by
              simp [List.takeWhile_cons, h1]
            have hd : (c :: rest).dropWhile (fun c => c != '/') =
                rest.dropWhile (fun c => c != '/') := by
              simp [List.dropWhile_cons, h1]
            have hgw : GoodSeg (c :: rest.takeWhile (fun c => c != '/')) := by
              refine ⟨by simp, ?_, ?_, ?_⟩
              · rw [← hw]; exact takeWhile_noslash _
              · intro h
                simp only [List.cons.injEq] at h
                exact h2 ⟨h.1, takeWhile_eq_nil_imp rest h.2⟩
              · intro h
                simp only [List.cons.injEq] at h
                obtain ⟨hc, ht⟩ := h
                cases rest with
                | nil => simp at ht
                | cons c2 rest2 =>
                  by_cases hc2 : c2 = '/'
                  · simp [List.takeWhile_cons, hc2] at ht
                  · simp only [List.takeWhile_cons, bne_iff_ne, ne_eq, hc2, not_false_eq_true,
                      decide_True, if_true, List.cons.injEq] at ht
                    exact h3 ⟨hc, by simp [ht.1], by
                      simpa using takeWhile_eq_nil_imp rest2 ht.2⟩
            have e := cleanStack_split_seg _ _ (takeWhile_noslash (c :: rest))
              (dropWhile_head (c :: rest)) stk
            rw [← hsplit, hw, hd] at e
            rw [e]
            have hcs : cleanStack [c :: rest.takeWhile (fun c => c != '/')] stk =
                stk ++ [c :: rest.takeWhile (fun c => c != '/')] := by
              obtain ⟨g1, _, g3, g4⟩ := hgw
              simp [cleanStack, g3, g4]
            rw [hcs]
            have hgood : ∀ s ∈ stk ++ [c :: rest.takeWhile (fun c => c != '/')], GoodSeg s := by
              intro s hs
              rcases List.mem_append.mp hs with hs | hs
              · exact hstk s hs
              · simp at hs; subst hs; exact hgw
            have hlenD : (rest.dropWhile (fun c => c != '/')).length ≤ fuel :=
              le_trans (dropWhile_length_le rest) hlen'
            have hout : (if (true && (render stk).length != 1) ||
                (!true && (render stk).length != 0) then render stk ++ ['/'] else render stk)
                ++ (c :: rest).takeWhile (fun c => c != '/') =
                render (stk ++ [c :: rest.takeWhile (fun c => c != '/')]) := by
              rw [render_snoc, hw]
              by_cases hnil : stk = []
              · subst hnil; simp [render, segsJoin]
              · have := (render_length_one stk hstk).not.mpr hnil
                rw [render_of_ne_nil stk hnil] at this ⊢
                simp [this]
            simp only [cleanLoop, h1, if_false, h2, h3, copyElem_eq, hd]
            rw [hout]
            exact ih _ _ hlenD hgood


theorem render_ne_nil (stk : List (List Char)) : render stk ≠ [] := by
  cases stk <;> simp [render, segsJoin]

theorem render_head (stk : List (List Char)) : (render stk).head? = some '/' := by
  cases stk <;> simp [render, segsJoin]

theorem segsJoin_getLast (stk : List (List Char)) (hstk : ∀ s ∈ stk, GoodSeg s)
    (hne : stk ≠ []) : (segsJoin stk).getLast? ≠ some '/' := by
  obtain ⟨stk', w, rfl⟩ : ∃ stk' w, stk = stk' ++ [w] :=
    ⟨stk.dropLast, stk.getLast hne, (List.dropLast_append_getLast hne).symm⟩
  obtain ⟨hw, hns, _, _⟩ := hstk w (by simp)
  obtain ⟨w', l, rfl⟩ : ∃ w' l, w = w' ++ [l] :=
    ⟨w.dropLast, w.getLast hw, (List.dropLast_append_getLast hw).symm⟩
  have hl : l ≠ '/' := fun h => hns (by simp [h])
  rw [segsJoin_append]
  have : segsJoin stk' ++ segsJoin [w' ++ [l]] = (segsJoin stk' ++ '/' :: w') ++ [l] := by
    simp [segsJoin]
  rw [this, List.getLast?_append]
  simpa using hl

theorem render_getLast (stk : List (List Char)) (hstk : ∀ s ∈ stk, GoodSeg s)
    (hne : render stk ≠ ['/']) : (render stk).getLast? ≠ some '/' := by
  have hs : stk ≠ [] := by
    rintro rfl
    exact hne rfl
  rw [render_of_ne_nil stk hs]
  exact segsJoin_getLast stk hstk hs

theorem splitSlash_segs (ss : List (List Char)) : ∀ s : List Char,
    (∀ t ∈ s :: ss, '/' ∉ t) → splitSlash (s ++ segsJoin ss) = s :: ss := by
  induction ss with
  | nil => intro s h; simpa [segsJoin] using splitSlash_noslash s (h s (by simp))
  | cons s2 ss ih =>
    intro s h
    have h2 : ∀ t ∈ s2 :: ss, '/' ∉ t := fun t ht => h t (by simp [List.mem_cons.mp ht])
    simp only [segsJoin, List.cons_append]
    rw [splitSlash_append_slash, splitSlash_noslash s (h s (by simp)), ih s2 h2]
    rfl

theorem splitSlash_render_tail (stk : List (List Char)) (hstk : ∀ s ∈ stk, '/' ∉ s)
    (hne : stk ≠ []) : splitSlash (render stk).tail = stk := by
  cases stk with
  | nil => exact absurd rfl hne
  | cons s ss => simpa [render, segsJoin] using splitSlash_segs ss s hstk

theorem isCleanAbs_render (stk : List (List Char)) (hstk : ∀ s ∈ stk, GoodSeg s) :
    IsCleanAbs (render stk) := by
  refine ⟨render_head stk, ?_⟩
  by_cases hne : stk = []
  · left; subst hne; rfl
  · right
    rw [splitSlash_render_tail stk (fun s hs => (hstk s hs).2.1) hne]
    intro s hs
    obtain ⟨g1, _, g3, g4⟩ := hstk s hs
    exact ⟨g1, g3, g4⟩

/-- On a rooted path `path.Clean` is the lexical processing of the pieces after the
leading `/`. -/
theorem Clean_rooted (u : List Char) :
    Clean ('/' :: u) = render (cleanStack (splitSlash u) []) := by
  have h := cleanLoop_rooted (u.length + 1) u [] (by omega) (by simp)
  have hr : render [] = ['/'] := rfl
  rw [hr] at h
  have hn := render_ne_nil (cleanStack (splitSlash u) [])
  simp [Clean, h, hn]

theorem cleanStack_root_good (u : List Char) :
    ∀ s ∈ cleanStack (splitSlash u) [], GoodSeg s :=
  cleanStack_good _ _ (splitSlash_mem_noslash u) (by simp)

theorem Join_root (u : Str) :
    Join ["/".toList, u] = render (cleanStack (splitSlash u) []) := by
  have hb : joinBuf [] ["/".toList, u] = '/' :: '/' :: u := by
    simp [joinBuf]
  have hsum : ¬ ((["/".toList, u].map List.length).sum = 0) := by simp
  rw [Join, if_neg hsum, hb, Clean_rooted]
  simp [splitSlash, cleanStack]

theorem Join_root3 (b p : Str) :
    Join ["/".toList, b, p] = render (cleanStack (splitSlash p) (cleanStack (splitSlash b) [])) := by
  have hb : joinBuf [] ["/".toList, b, p] = '/' :: '/' :: (b ++ '/' :: p) := by
    simp [joinBuf]
  have hsum : ¬ ((["/".toList, b, p].map List.length).sum = 0) := by simp
  rw [Join, if_neg hsum, hb, Clean_rooted]
  have : splitSlash ('/' :: (b ++ '/' :: p)) = [] :: (splitSlash b ++ splitSlash p) := by
    rw [← splitSlash_append_slash]; simp [splitSlash]
  rw [this, cleanStack_cons, cleanStack_append]
  simp [cleanStack]

theorem Join_root_isCleanAbs (u : Str) : IsCleanAbs (Join ["/".toList, u]) := by
  rw [Join_root]
  exact isCleanAbs_render _ (cleanStack_root_good u)


theorem cleanStack_goods (bs : List (List Char)) : ∀ stk : List (List Char),
    (∀ s ∈ bs, GoodSeg s) → cleanStack bs stk = stk ++ bs := by
  induction bs with
  | nil => intro stk _; simp [cleanStack]
  | cons b bs ih =>
    intro stk h
    obtain ⟨g1, _, g3, g4⟩ := h b (by simp)
    have h' : ∀ s ∈ bs, GoodSeg s := fun s hs => h s (by simp [hs])
    simp [cleanStack, g1, g3, g4, ih _ h']

theorem cleanStack_no_dotdot (segs : List (List Char)) : ∀ stk : List (List Char),
    (∀ s ∈ segs, s ≠ ['.', '.']) → cleanStack segs stk = stk ++ cleanStack segs [] := by
  induction segs with
  | nil => intro stk _; simp [cleanStack]
  | cons seg segs ih =>
    intro stk h
    have h' : ∀ s ∈ segs, s ≠ ['.', '.'] := fun s hs => h s (by simp [hs])
    have hseg : seg ≠ ['.', '.'] := h seg (by simp)
    simp only [cleanStack, hseg, if_false]
    split_ifs
    · exact ih stk h'
    · rw [ih (stk ++ [seg]) h', ih ([] ++ [seg]) h']
      simp

theorem cleanStack_splitSlash_render (bs : List (List Char)) (hbs : ∀ s ∈ bs, GoodSeg s) :
    cleanStack (splitSlash (render bs)) [] = bs := by
  by_cases hne : bs = []
  · subst hne; simp [render, splitSlash, cleanStack]
  · have hcons : render bs = '/' :: (render bs).tail := by
      cases bs with
      | nil => exact absurd rfl hne
      | cons b bs => simp [render, segsJoin]
    have hsp : splitSlash (render bs) = [] :: splitSlash (render bs).tail := by
      conv_lhs => rw [hcons]
      simp [splitSlash]
    rw [hsp, splitSlash_render_tail bs (fun s hs => (hbs s hs).2.1) hne, cleanStack_cons]
    simpa [cleanStack] using cleanStack_goods bs [] hbs

/-- A rooted path that `path.Clean` leaves unchanged is the rendering of good elements. -/
theorem clean_fixed_render (b : Str) (hroot : b.head? = some '/') (hfix : Clean b = b) :
    ∃ bs, (∀ s ∈ bs, GoodSeg s) ∧ b = render bs := by
  cases b with
  | nil => simp at hroot
  | cons c u =>
    simp at hroot
    subst hroot
    exact ⟨_, cleanStack_root_good u, by rw [← Clean_rooted]; exact hfix.symm⟩

theorem toHref_base_good (b p : Str) :
    ∃ S, (∀ s ∈ S, GoodSeg s) ∧ Join ["/".toList, b, p] = render S :=
  ⟨_, cleanStack_good _ _ (splitSlash_mem_noslash p) (cleanStack_root_good b), Join_root3 b p⟩

theorem toHref_prefix_aux (b p : Str)
    (hb : b = [] ∨ (b.head? = some '/' ∧ Clean b = b))
    (hp : ∀ s ∈ splitSlash p, s ≠ ['.', '.']) :
    b <+: Join ["/".toList, b, p] := by
  rcases hb with rfl | ⟨hroot, hfix⟩
  · exact List.nil_prefix
  · obtain ⟨bs, hbs, rfl⟩ := clean_fixed_render b hroot hfix
    rw [Join_root3, cleanStack_splitSlash_render bs hbs, cleanStack_no_dotdot _ _ hp]
    by_cases hne : bs = []
    · subst hne
      have hh := render_head (cleanStack (splitSlash p) [])
      cases hX : render ([] ++ cleanStack (splitSlash p) []) with
      | nil => exact absurd hX (render_ne_nil _)
      | cons c t =>
        simp only [List.nil_append] at hX
        rw [hX] at hh
        simp at hh
        subst hh
        simp [render]
    · rw [render_of_ne_nil bs hne,
        render_of_ne_nil (bs ++ cleanStack (splitSlash p) []) (by simp [hne]), segsJoin_append]
      exact List.prefix_append _ _

/-! ## Lemmas on the ETag and on `path.Split` -/

theorem hextable_getD_mem (i : Nat) : hextable.getD (i % 16) '0' ∈ hextable := by
  have h : ∀ j : Fin 16, hextable.getD j.val '0' ∈ hextable := by decide
  exact h ⟨i % 16, Nat.mod_lt _ (by decide)⟩

theorem hextable_ne_dquote (c : Char) (hc : c ∈ hextable) : c ≠ dquote := by
  have h : ∀ c ∈ hextable, c ≠ dquote := by decide
  exact h c hc

theorem hexEncode_mem (l : List Nat) : ∀ c ∈ hexEncode l, c ∈ hextable := by
  induction l with
  | nil => simp [hexEncode]
  | cons v vs ih =>
    intro c hc
    simp only [hexEncode, List.mem_cons] at hc
    rcases hc with rfl | rfl | hc
    · exact hextable_getD_mem _
    · exact hextable_getD_mem _
    · exact ih c hc

theorem quoteETag_hexEncode (l : List Nat) :
    quoteETag (hexEncode l) = [dquote] ++ hexEncode l ++ [dquote] := by
  cases l with
  | nil => simp [quoteETag, hexEncode, HasPrefix]
  | cons v vs =>
    have hne := hextable_ne_dquote _ (hextable_getD_mem (v / 16))
    have hpre : HasPrefix (hexEncode (v :: vs)) [dquote] = false := by
      have hne' : (dquote == hextable.getD (v / 16 % 16) '0') = false := by
        simpa using Ne.symm hne
      simp only [hexEncode, HasPrefix, List.isPrefixOf, hne', Bool.false_and]
    simp [quoteETag, hpre]

theorem quoteETag_ne_nil (s : Str) : quoteETag s ≠ [] := by
  unfold quoteETag
  split_ifs with h
  · intro hs
    subst hs
    simp [HasPrefix] at h
  · simp

theorem Contains_self (s : Str) : Contains s s = true := by
  cases s with
  | nil => simp [Contains, HasPrefix]
  | cons c s => simp [Contains, HasPrefix]

theorem splitRev_seg (v : List Char) (Y : List Char) (hv : '/' ∉ v) :
    splitRev (v ++ '/' :: Y) = (v.reverse, '/' :: Y) := by
  induction v with
  | nil => simp [splitRev]
  | cons c v ih =>
    have hc : c ≠ '/' := fun h => hv (by simp [h])
    have hv' : '/' ∉ v := fun h => hv (by simp [h])
    simp [splitRev, hc, ih hv']

theorem Split_seg (X w : List Char) (hw : '/' ∉ w) :
    Split (X ++ '/' :: w) = (X ++ ['/'], w) := by
  have hrev : (X ++ '/' :: w).reverse = w.reverse ++ '/' :: X.reverse := by simp
  have hw' : '/' ∉ w.reverse := by simpa using hw
  simp [Split, hrev, splitRev_seg _ _ hw']

theorem HasSuffix_slash (q : Str) (h : q.getLast? ≠ some '/') :
    HasSuffix q ['/'] = false := by
  by_contra hc
  have hc' : HasSuffix q ['/'] = true := by simpa using hc
  rw [HasSuffix, List.isSuffixOf_iff_suffix] at hc'
  obtain ⟨t, rfl⟩ := hc'
  exact h (by simp)

/-- The split `Stat` makes of a cleaned absolute path other than the root: the parent up to
and including the last `/`, and a leaf that is not empty and holds no `/`. -/
theorem Split_cleaned (u : Str) (hne : Join ["/".toList, u] ≠ "/".toList) :
    (Split (TrimSuffix (Join ["/".toList, u]) "/".toList)).1 ++
        (Split (TrimSuffix (Join ["/".toList, u]) "/".toList)).2 = Join ["/".toList, u] ∧
    '/' ∉ (Split (TrimSuffix (Join ["/".toList, u]) "/".toList)).2 ∧
    (Split (TrimSuffix (Join ["/".toList, u]) "/".toList)).2 ≠ [] ∧
    (Split (TrimSuffix (Join ["/".toList, u]) "/".toList)).1.getLast? = some '/' := by
  have hg := cleanStack_root_good u
  rw [Join_root] at hne ⊢
  generalize cleanStack (splitSlash u) [] = S at hg hne ⊢
  have hS : S ≠ [] := by rintro rfl; exact hne rfl
  have hlast := render_getLast S hg hne
  have hsuf := HasSuffix_slash _ hlast
  have htrim : TrimSuffix (render S) "/".toList = render S := by
    simp [TrimSuffix, hsuf]
  rw [htrim]
  obtain ⟨S', w, rfl⟩ : ∃ S' w, S = S' ++ [w] :=
    ⟨S.dropLast, S.getLast hS, (List.dropLast_append_getLast hS).symm⟩
  obtain ⟨g1, g2, _, _⟩ := hg w (by simp)
  rw [render_snoc, Split_seg _ _ g2]
  exact ⟨by simp, g2, g1, by simp⟩

theorem statScan_eq_find (name : Str) (files : List Info) :
    statScan name files =
      match files.find? (fun f => decide (f.Name = name)) with
      | some f => .ok f
      | none => .error "file not found".toList := by
  induction files with
  | nil => simp [statScan]
  | cons f files ih =>
    by_cases hf : f.Name = name
    · simp [statScan, hf]
    · simp [statScan, hf, ih, List.find?_cons]

/-! ## Lemmas on the response writer and the handler -/

theorem lookup_filter_append (hd : List (Str × Str)) (k v k' : Str) :
    List.lookup k' (hd.filter (fun kv => kv.1 != k) ++ [(k, v)]) =
      if k' = k then some v else hd.lookup k' := by
  induction hd with
  | nil =>
    by_cases hk : k' = k
    · simp [List.lookup, hk]
    · have : (k' == k) = false := by simpa using hk
      simp [List.lookup, hk, this]
  | cons kv hd ih =>
    obtain ⟨k0, v0⟩ := kv
    by_cases h0 : k0 = k
    · subst h0
      by_cases hk : k' = k0
      · simp [hk] at ih ⊢
        exact ih
      · have hb : (k' == k0) = false := by simpa using hk
        simp [hk, List.lookup, hb] at ih ⊢
        exact ih
    · have hf : (k0 != k) = true := by simpa using h0
      simp only [List.filter_cons, hf, if_true, List.cons_append, List.lookup]
      by_cases hk : k' = k0
      · subst hk
        simp [h0]
      · have hb : (k' == k0) = false := by simpa using hk
        simp only [hb]
        exact ih

theorem headerGet_Set (w : ResponseWriter) (k v k' : Str) :
    headerGet (w.Set k v).header k' = if k' = k then v else headerGet w.header k' := by
  simp only [headerGet, ResponseWriter.Set, lookup_filter_append]
  split_ifs <;> rfl

theorem Set_status (w : ResponseWriter) (k v : Str) : (w.Set k v).status = w.status := rfl

theorem Del_status (w : ResponseWriter) (k : Str) : (w.Del k).status = w.status := rfl

theorem Set_body (w : ResponseWriter) (k v : Str) : (w.Set k v).body = w.body := rfl

theorem httpError_status (w : ResponseWriter) (msg : Str) (code : Nat) (hw : w.status = 0)
    (hc : code ≠ 0) : (httpError w msg code).status = code := by
  simp [httpError, ResponseWriter.Write, ResponseWriter.WriteHeader, Set_status, Del_status,
    hw, hc]

theorem appendResponses_eq (L : Lib) (h : Handler σ) (children : List Info) :
    ∀ acc, Handler.appendResponses L h acc children =
      acc ++ children.map (h.makeResponse L) := by
  induction children with
  | nil => intro acc; simp [Handler.appendResponses]
  | cons v children ih => intro acc; simp [Handler.appendResponses, ih]

theorem writeMultiStatus_eq (L : Lib) (h : Handler σ) (w : ResponseWriter) (root : Info)
    (children : List Info) (hw : w.status = 0) :
    (h.writeMultiStatus L w root children).status = 207 ∧
    (h.writeMultiStatus L w root children).body =
      w.body ++ [.text XmlHeader,
        .xml { XmlnsD := "DAV:".toList,
               Response := h.makeResponse L root :: children.map (h.makeResponse L) }] := by
  simp [Handler.writeMultiStatus, appendResponses_eq, ResponseWriter.Write,
    ResponseWriter.WriteHeader, Set_status, Set_body, hw]

theorem ensureETag_ne_nil (L : Lib) (info : Info) : ensureETag L info ≠ [] := by
  unfold ensureETag
  split_ifs
  · exact quoteETag_ne_nil _
  · exact quoteETag_ne_nil _

theorem WriteHeader_header (w : ResponseWriter) (code : Nat) :
    (w.WriteHeader code).header = w.header := by
  unfold ResponseWriter.WriteHeader
  split_ifs <;> rfl

theorem WriteHeader_body (w : ResponseWriter) (code : Nat) :
    (w.WriteHeader code).body = w.body := by
  unfold ResponseWriter.WriteHeader
  split_ifs <;> rfl

theorem WriteHeader_status (w : ResponseWriter) (code : Nat) (hw : w.status = 0) :
    (w.WriteHeader code).status = code := by
  simp [ResponseWriter.WriteHeader, hw]

theorem ServeHTTP_get_head (L : Lib) (h : Handler σ) (w : ResponseWriter) (r : Request) (s : σ)
    (hm : r.Method = "GET".toList ∨ r.Method = "HEAD".toList) :
    h.ServeHTTP L w r s = h.handleGetHead L w r s := by
  have hopt : r.Method ≠ "OPTIONS".toList := by
    rcases hm with hm | hm <;> rw [hm] <;> decide
  simp only [Handler.ServeHTTP, if_neg hopt, if_pos hm]

theorem ServeHTTP_propfind (L : Lib) (h : Handler σ) (w : ResponseWriter) (r : Request) (s : σ)
    (hm : r.Method = "PROPFIND".toList) :
    h.ServeHTTP L w r s = h.handlePropfind L w r s := by
  have hopt : r.Method ≠ "OPTIONS".toList := by rw [hm]; decide
  have hget : ¬ (r.Method = "GET".toList ∨ r.Method = "HEAD".toList) := by rw [hm]; decide
  simp only [Handler.ServeHTTP, if_neg hopt, if_neg hget, if_pos hm]

/-! ## Lemmas on the resolver and its cache -/

theorem wrapInt64_small (x : Int) (h0 : 0 ≤ x) (h1 : x < 2 ^ 63) : wrapInt64 x = x := by
  unfold wrapInt64
  norm_num at h1 ⊢
  omega

theorem wrapInt64_over (x : Int) (h0 : 2 ^ 63 ≤ x) (h1 : x < 2 ^ 64) : wrapInt64 x < 0 := by
  unfold wrapInt64
  norm_num at h0 h1 ⊢
  omega

theorem listCalls_append (a b : List Event) : listCalls (a ++ b) = listCalls a + listCalls b := by
  simp [listCalls, List.countP_append]

theorem cacheGet_snd (E : Env ω) (d : Drive ω) (k : Str) :
    (d.cacheGet E k).2 = { d with log := d.log ++ [.cacheGet k] } := by
  unfold Drive.cacheGet
  split
  · rfl
  · split_ifs <;> rfl

/-- What a cache miss does besides the cache access: only the world and the events change,
`client.List` is called at most once, and exactly once when the result is a success or the
limiter lets the call through. -/
theorem miss_frame (E : Env ω) (q : Str) (d : Drive ω) :
    (Drive.checkRateLimit E (Drive.listDir E q) d).2.items = d.items ∧
    (Drive.checkRateLimit E (Drive.listDir E q) d).2.defaultExpiration = d.defaultExpiration ∧
    (Drive.checkRateLimit E (Drive.listDir E q) d).2.hasLimiter = d.hasLimiter ∧
    ∃ ev, (Drive.checkRateLimit E (Drive.listDir E q) d).2.log = d.log ++ ev ∧
      ((∃ v, (Drive.checkRateLimit E (Drive.listDir E q) d).1 = .ok v) →
        listCalls ev = 1 ∧
        ∃ l, (Drive.checkRateLimit E (Drive.listDir E q) d).1 = .ok (.infos l)) ∧
      (limiterAllows E q d = true → listCalls ev = 1) ∧
      (d.hasLimiter = true → (E.Wait d.world).1 = false →
        (Drive.checkRateLimit E (Drive.listDir E q) d).1 =
          .error "rate limit exceeded".toList ∧ listCalls ev = 0) := by
  unfold Drive.checkRateLimit Drive.listDir Drive.checkRateLimit limiterAllows
  cases hl : d.hasLimiter <;> simp only [hl]
  · generalize hid : (match (E.DirName2CID q d.world).1 with
        | .ok cid => cid
        | .error _ => "0".toList) = dirID
    refine ⟨?_, ?_, ?_, [.dirName2CID q, .list dirID], ?_, ?_, ?_, ?_⟩
    all_goals cases hL : (E.List dirID (E.DirName2CID q d.world).2).1
    all_goals simp [listCalls, hL]
  · cases hw1 : (E.Wait d.world).1
    · refine ⟨?_, ?_, ?_, [.wait false], ?_, ?_, ?_, ?_⟩
      all_goals simp [listCalls, hw1]
    · generalize hid : (match (E.DirName2CID q (E.Wait d.world).2).1 with
          | .ok cid => cid
          | .error _ => "0".toList) = dirID
      cases hw2 : (E.Wait (E.DirName2CID q (E.Wait d.world).2).2).1
      · refine ⟨?_, ?_, ?_, [.wait true, .dirName2CID q, .wait false], ?_, ?_, ?_, ?_⟩
        all_goals simp [listCalls, hw1, hw2]
      · refine ⟨?_, ?_, ?_, [.wait true, .dirName2CID q, .wait true, .list dirID],
          ?_, ?_, ?_, ?_⟩
        all_goals cases hL : (E.List dirID
          (E.Wait (E.DirName2CID q (E.Wait d.world).2).2).2).1
        all_goals simp [listCalls, hw1, hw2, hL]

theorem listCalls_cacheGet (k : Str) : listCalls [Event.cacheGet k] = 0 := rfl

theorem listCalls_cacheSet (k : Str) : listCalls [Event.cacheSet k] = 0 := rfl

/-- The call `ReadDir` on a live cache entry: the cached listing, with the cache read as the only
event. -/
theorem ReadDir_hit (E : Env ω) (p : Str) (d : Drive ω) (item : Item) (infos : List Info)
    (hlook : d.items.lookup (cacheKeyDir (Join ["/".toList, p])) = some item)
    (hobj : item.Object = .infos infos)
    (hlive : ¬ (item.Expiration > 0 ∧ (E.Now d.world : Int) > item.Expiration)) :
    Drive.ReadDir E p d =
      (.ok infos, { d with log := d.log ++ [.cacheGet (cacheKeyDir (Join ["/".toList, p]))] }) := by
  have hG : d.cacheGet E (cacheKeyDir (Join ["/".toList, p])) =
      (some (.infos infos),
        { d with log := d.log ++ [.cacheGet (cacheKeyDir (Join ["/".toList, p]))] }) := by
    simp only [Drive.cacheGet, hlook]
    by_cases h1 : item.Expiration > 0
    · have h2 : ¬ ((E.Now d.world : Int) > item.Expiration) := fun h => hlive ⟨h1, h⟩
      simp only [h1, h2, if_true, if_false, hobj]
    · simp only [h1, if_false, hobj]
  simp only [Drive.ReadDir, Drive.fetchCache, hG]

/-- The call `ReadDir` when the cache has no live entry: the rate-limited listing, stored on
success. -/
theorem ReadDir_miss (E : Env ω) (p : Str) (d : Drive ω)
    (hmiss : (d.cacheGet E (cacheKeyDir (Join ["/".toList, p]))).1 = none) :
    Drive.ReadDir E p d =
      match Drive.checkRateLimit E (Drive.listDir E (Join ["/".toList, p]))
          { d with log := d.log ++ [.cacheGet (cacheKeyDir (Join ["/".toList, p]))] } with
      | (.error err, d2) => (.error err, d2)
      | (.ok (.infos l), d2) =>
        (.ok l, d2.cacheSet E (cacheKeyDir (Join ["/".toList, p])) (.infos l))
      | (.ok (.url u), d2) =>
        (.error "panic: interface conversion".toList,
          d2.cacheSet E (cacheKeyDir (Join ["/".toList, p])) (.url u)) := by
  have hG : d.cacheGet E (cacheKeyDir (Join ["/".toList, p])) =
      (none, { d with log := d.log ++ [.cacheGet (cacheKeyDir (Join ["/".toList, p]))] }) :=
    Prod.ext hmiss (cacheGet_snd E d _)
  simp only [Drive.ReadDir, Drive.fetchCache, hG]
  rcases Drive.checkRateLimit E (Drive.listDir E (Join ["/".toList, p]))
      { d with log := d.log ++ [.cacheGet (cacheKeyDir (Join ["/".toList, p]))] }
    with ⟨res, d2⟩
  cases res with
  | error err => rfl
  | ok v => cases v <;> rfl

theorem cacheGet_expired (E : Env ω) (d : Drive ω) (k : Str) (item : Item)
    (hlook : d.items.lookup k = some item) (h1 : item.Expiration > 0)
    (h2 : (E.Now d.world : Int) > item.Expiration) : (d.cacheGet E k).1 = none := by
  simp only [Drive.cacheGet, hlook, h1, h2, if_true]

/-- The call `ReadDir` on an expired cache entry: the cache is read, and the upstream listing is
called once when the limiter lets the call through and not at all when it refuses the wait. -/
theorem ReadDir_expired (E : Env ω) (p : Str) (d : Drive ω) (item : Item)
    (hlook : d.items.lookup (cacheKeyDir (Join ["/".toList, p])) = some item)
    (h1 : item.Expiration > 0) (h2 : (E.Now d.world : Int) > item.Expiration) :
    (∃ rest, (Drive.ReadDir E p d).2.log =
      d.log ++ Event.cacheGet (cacheKeyDir (Join ["/".toList, p])) :: rest) ∧
    (limiterAllows E (Join ["/".toList, p]) d = true →
      listCalls (Drive.ReadDir E p d).2.log = listCalls d.log + 1) ∧
    (d.hasLimiter = true → (E.Wait d.world).1 = false →
      (Drive.ReadDir E p d).1 = .error "rate limit exceeded".toList ∧
      listCalls (Drive.ReadDir E p d).2.log = listCalls d.log) := by
  have hmiss := ReadDir_miss E p d (cacheGet_expired E d _ item hlook h1 h2)
  generalize cacheKeyDir (Join ["/".toList, p]) = key at *
  obtain ⟨_, _, _, ev, glog, _, gadm, gden⟩ := miss_frame E (Join ["/".toList, p])
    { d with log := d.log ++ [.cacheGet key] }
  rcases hY : Drive.checkRateLimit E (Drive.listDir E (Join ["/".toList, p]))
    { d with log := d.log ++ [.cacheGet key] } with ⟨res, d3⟩
  rw [hY] at glog gden hmiss
  simp only at glog gden hmiss
  have hlog : ∃ tl, listCalls tl = 0 ∧
      (Drive.ReadDir E p d).2.log = d.log ++ [.cacheGet key] ++ ev ++ tl := by
    rw [hmiss]
    cases res with
    | error err => exact ⟨[], rfl, by simp only [glog, List.append_nil]⟩
    | ok v =>
      cases v with
      | infos l => exact ⟨[.cacheSet key], rfl, by simp only [Drive.cacheSet, glog]⟩
      | url u => exact ⟨[.cacheSet key], rfl, by simp only [Drive.cacheSet, glog]⟩
  obtain ⟨tl, htl, hlog⟩ := hlog
  refine ⟨⟨ev ++ tl, by rw [hlog]; simp⟩, ?_, ?_⟩
  · intro hadm
    rw [hlog]
    simp only [listCalls_append, listCalls_cacheGet, htl, gadm hadm]
  · intro hlim hwait
    obtain ⟨hres, hz⟩ := gden hlim hwait
    refine ⟨?_, ?_⟩
    · rw [hmiss]
      subst hres
      rfl
    · rw [hlog]
      simp only [listCalls_append, listCalls_cacheGet, htl, hz, Nat.add_zero]

/-- Every `Stat` error is answered 404 by GET, HEAD and PROPFIND alike, with `Stat` as the
only call on the `FS`. -/
theorem stat_error_not_found (L : Lib) (h : Handler σ) (w : ResponseWriter) (r : Request)
    (s s1 : σ) (p err : Str) (hw : w.status = 0)
    (hm : r.Method = "GET".toList ∨ r.Method = "HEAD".toList ∨
      (r.Method = "PROPFIND".toList ∧
        (headerGet r.Header "Depth".toList = "0".toList ∨
         headerGet r.Header "Depth".toList = "1".toList ∨
         headerGet r.Header "Depth".toList = [])))
    (hc : h.cleanPath r.URLPath = (p, true)) (hstat : h.FS.Stat p s = (.error err, s1)) :
    (h.ServeHTTP L w r s).w = httpNotFound w ∧
    (h.ServeHTTP L w r s).w.status = 404 ∧
    (h.ServeHTTP L w r s).calls = [.Stat p] ∧
    (h.ServeHTTP L w r s).fs = s1 := by
  have hcp : (!(h.cleanPath r.URLPath).2) = false := by rw [hc]; rfl
  have hp : (h.cleanPath r.URLPath).1 = p := by rw [hc]
  have hne : ¬ ("1".toList = ([] : Str)) := by decide
  have hne0 : ¬ ("0".toList = ([] : Str)) := by decide
  have hc0 : ("0".toList != "0".toList && "0".toList != "1".toList) = false := by decide
  have hc1 : ("1".toList != "0".toList && "1".toList != "1".toList) = false := by decide
  have heq : h.ServeHTTP L w r s = ⟨httpNotFound w, [.Stat p], s1⟩ := by
    rcases hm with hm | hm | ⟨hm, hd⟩
    · rw [ServeHTTP_get_head L h w r s (Or.inl hm)]
      simp only [Handler.handleGetHead, hcp, hp, hstat, Bool.false_eq_true, if_false]
    · rw [ServeHTTP_get_head L h w r s (Or.inr hm)]
      simp only [Handler.handleGetHead, hcp, hp, hstat, Bool.false_eq_true, if_false]
    · rw [ServeHTTP_propfind L h w r s hm]
      rcases hd with hd | hd | hd
      · simp only [Handler.handlePropfind, hcp, hp, hd, if_neg hne0, hc0, hstat,
          Bool.false_eq_true, if_false]
      · simp only [Handler.handlePropfind, hcp, hp, hd, if_neg hne, hc1, hstat,
          Bool.false_eq_true, if_false]
      · simp only [Handler.handlePropfind, hcp, hp, hd, if_true, hc1, hstat,
          Bool.false_eq_true, if_false]
  rw [heq]
  exact ⟨rfl, httpError_status w _ 404 hw (by decide), rfl, rfl⟩

/-! ## Claims -/

/-- C10: `cleanPath` rejects exactly when the base path is non-empty and the URL path does
not start with it; an accepted path is a cleaned absolute path: it begins with `/`, has
no empty, `.` or `..` element, and ends with `/` only when it is `/` itself. -/
theorem cleanPath_accepts_cleaned (h : Handler σ) (urlPath : Str) :
    ((h.cleanPath urlPath).2 = false ↔
        (h.BasePath ≠ [] ∧ HasPrefix urlPath h.BasePath = false)) ∧
    ((h.cleanPath urlPath).2 = true →
        IsCleanAbs (h.cleanPath urlPath).1 ∧
        ((h.cleanPath urlPath).1 ≠ ['/'] → (h.cleanPath urlPath).1.getLast? ≠ some '/') ∧
        Clean (h.cleanPath urlPath).1 = (h.cleanPath urlPath).1) := by
  have key : ∀ u : Str, IsCleanAbs (Join ["/".toList, u]) ∧
      (Join ["/".toList, u] ≠ ['/'] → (Join ["/".toList, u]).getLast? ≠ some '/') ∧
      Clean (Join ["/".toList, u]) = Join ["/".toList, u] := by
    intro u
    refine ⟨Join_root_isCleanAbs u, ?_, ?_⟩
    · rw [Join_root]
      exact render_getLast _ (cleanStack_root_good u)
    · rw [Join_root]
      have hg := cleanStack_root_good u
      generalize cleanStack (splitSlash u) [] = S at hg ⊢
      cases hS : render S with
      | nil => exact absurd hS (render_ne_nil S)
      | cons c t =>
        have hh := render_head S
        rw [hS] at hh
        simp at hh
        subst hh
        rw [Clean_rooted]
        have : splitSlash t = splitSlash (render S).tail := by rw [hS]; rfl
        by_cases hne : S = []
        · subst hne
          simp [render] at hS
          subst hS
          simp [splitSlash, cleanStack, render]
        · rw [this, splitSlash_render_tail S (fun s hs => (hg s hs).2.1) hne,
            cleanStack_goods S [] hg, List.nil_append, hS]
  unfold Handler.cleanPath
  by_cases hb : h.BasePath = []
  · simpa [hb] using key urlPath
  · by_cases hp : HasPrefix urlPath h.BasePath = true
    · simpa [hb, hp] using key (TrimPrefix urlPath h.BasePath)
    · simp [hb, hp]

/-- Witness of C10 on the base path `/dav` and the URL path `/dav/a/./b/../../../etc/`. -/
theorem cleanPath_accepts_cleaned_witness :
    ((demoHandler "/dav".toList).cleanPath "/dav/a/./b/../../../etc/".toList).2 = true ∧
    IsCleanAbs ((demoHandler "/dav".toList).cleanPath "/dav/a/./b/../../../etc/".toList).1 ∧
    ((demoHandler "/dav".toList).cleanPath "/dav/a/./b/../../../etc/".toList).1 =
      "/etc".toList :=
  ⟨by decide,
   ((cleanPath_accepts_cleaned (demoHandler "/dav".toList)
      "/dav/a/./b/../../../etc/".toList).2 (by decide)).1,
   by decide⟩

/-- C5 (as amended): every href is absolute; a directory href ends with `/`; a file href
has no trailing `/` unless it is `/` itself; when the base path is empty or a cleaned
absolute path and the entity path has no `..` element, the href begins with the base path;
base `/dav` and entity `/a/b` give `/dav/a/b` for a file and `/dav/a/b/` for a directory. -/
theorem toHref_absolute_prefixed (h : Handler σ) (p : Str) :
    (∀ isDir, (h.toHref p isDir).head? = some '/') ∧
    (h.toHref p true).getLast? = some '/' ∧
    (h.toHref p false ≠ ['/'] → (h.toHref p false).getLast? ≠ some '/') ∧
    ((h.BasePath = [] ∨ (h.BasePath.head? = some '/' ∧ Clean h.BasePath = h.BasePath)) →
      (∀ s ∈ splitSlash p, s ≠ ['.', '.']) →
      ∀ isDir, HasPrefix (h.toHref p isDir) h.BasePath = true) ∧
    (h.BasePath = "/dav".toList → p = "/a/b".toList →
      h.toHref p false = "/dav/a/b".toList ∧ h.toHref p true = "/dav/a/b/".toList) := by
  obtain ⟨S, hS, hJ⟩ := toHref_base_good h.BasePath p
  have hslash : "/".toList = ['/'] := rfl
  refine ⟨?_, ?_, ?_, ?_, ?_⟩
  · intro isDir
    have hh := render_head S
    cases hR : render S with
    | nil => exact absurd hR (render_ne_nil S)
    | cons c t =>
      simp only [Handler.toHref, hJ, hR]
      split_ifs <;> simp [hR] at hh ⊢ <;> exact hh
  · simp only [Handler.toHref, hJ]
    by_cases hr : render S = ['/']
    · simp [hr, hslash]
    · simp [hr, hslash]
  · intro hne
    simp only [Handler.toHref, hJ] at hne ⊢
    simp only [Bool.false_and, Bool.false_eq_true, if_false] at hne ⊢
    exact render_getLast S hS hne
  · intro hb hp isDir
    have hpre := toHref_prefix_aux h.BasePath p hb hp
    simp only [HasPrefix, List.isPrefixOf_iff_prefix, Handler.toHref]
    split_ifs
    · exact hpre.trans ( List.prefix_append _ _)
    · exact hpre
  · intro hb hp
    simp only [Handler.toHref, hb, hp]
    decide

/-- Witness of C5 (as amended) on the base path `/dav` and the entity path `/a/b`. -/
theorem toHref_absolute_prefixed_witness :
    HasPrefix ((demoHandler "/dav".toList).toHref "/a/b".toList true) "/dav".toList = true ∧
    (demoHandler "/dav".toList).toHref "/a/b".toList false = "/dav/a/b".toList ∧
    (demoHandler "/dav".toList).toHref "/a/b".toList true = "/dav/a/b/".toList :=
  ⟨(toHref_absolute_prefixed (demoHandler "/dav".toList) "/a/b".toList).2.2.2.1
      (Or.inr (by decide)) (by decide) true,
   (toHref_absolute_prefixed (demoHandler "/dav".toList) "/a/b".toList).2.2.2.2 rfl rfl⟩

/-- C5 fails as stated: with base path `dav` the href of `/a/b` is `/dav/a/b`, which does
not begin with the base path; with base path `/dav` the href of `/..` is `/`; and with an
empty base path the href of the file `/` is `/`, which ends with the separator. -/
theorem toHref_claim_counterexample :
    ((demoHandler "dav".toList).toHref "/a/b".toList false = "/dav/a/b".toList ∧
      HasPrefix ((demoHandler "dav".toList).toHref "/a/b".toList false) "dav".toList = false) ∧
    ((demoHandler "/dav".toList).toHref "/..".toList false = "/".toList ∧
      HasPrefix ((demoHandler "/dav".toList).toHref "/..".toList false) "/dav".toList = false) ∧
    ((demoHandler []).toHref "/".toList false = "/".toList ∧
      HasSuffix ((demoHandler []).toHref "/".toList false) "/".toList = true) := by
  decide


/-- C7: the fallback ETag depends only on `Size` and the instant of `ModTime`: it is the
double-quoted lowercase hex digest of the text `<Size>:<UnixNano>`; with a non-empty
upstream `ETag` the result is that hash, quoted unless it already begins and ends with a
double quote, whatever `Size` and `ModTime` are. -/
theorem ensureETag_deterministic (L : Lib) :
    (∀ a b : Info, a.ETag = [] → b.ETag = [] → a.Size = b.Size →
      a.ModTime.sec = b.ModTime.sec → a.ModTime.nsec = b.ModTime.nsec →
      ensureETag L a = ensureETag L b) ∧
    (∀ a : Info, a.ETag = [] →
      ensureETag L a = [dquote] ++
        hexEncode (L.sha1Sum (formatInt a.Size ++ [':'] ++ formatInt a.ModTime.UnixNano)) ++
        [dquote] ∧
      ∀ c ∈ hexEncode (L.sha1Sum (formatInt a.Size ++ [':'] ++ formatInt a.ModTime.UnixNano)),
        c ∈ "0123456789abcdef".toList) ∧
    (∀ a b : Info, a.ETag ≠ [] → b.ETag = a.ETag →
      ensureETag L b = ensureETag L a ∧
      ensureETag L a =
        (if HasPrefix a.ETag [dquote] && HasSuffix a.ETag [dquote] then a.ETag
         else [dquote] ++ a.ETag ++ [dquote])) := by
  refine ⟨?_, ?_, ?_⟩
  · intro a b ha hb hsize hsec hnsec
    simp [ensureETag, ha, hb, hsize, Time.UnixNano, hsec, hnsec]
  · intro a ha
    refine ⟨?_, fun c hc => hexEncode_mem _ c hc⟩
    simp only [ensureETag, ha, bne_self_eq_false, Bool.false_eq_true, if_false]
    exact quoteETag_hexEncode _
  · intro a b ha hb
    have hb' : b.ETag ≠ [] := by rw [hb]; exact ha
    simp [ensureETag, ha, hb', hb, quoteETag]

/-- Witness of C7: two entries that differ in everything but size and instant get the
same fallback ETag, and an upstream hash is returned quoted. -/
theorem ensureETag_deterministic_witness :
    ensureETag demoLib
        { Path := "/x".toList, Name := "x".toList, IsDir := false, Size := 5,
          ModTime := { sec := 1700000000, nsec := 3, loc := "UTC".toList },
          ETag := [], PickCode := "p".toList } =
      ensureETag demoLib
        { Path := "/d/y".toList, Name := "y".toList, IsDir := true, Size := 5,
          ModTime := { sec := 1700000000, nsec := 3, loc := "Local".toList },
          ETag := [], PickCode := [] } ∧
    ensureETag demoLib
        { Path := "/x".toList, Name := "x".toList, IsDir := false, Size := 5,
          ModTime := { sec := 1700000000, nsec := 3, loc := "UTC".toList },
          ETag := "ABC".toList, PickCode := "p".toList } =
      [dquote] ++ "ABC".toList ++ [dquote] :=
  ⟨(ensureETag_deterministic demoLib).1 _ _ rfl rfl rfl rfl rfl,
   ((ensureETag_deterministic demoLib).2.2
      { Path := "/x".toList, Name := "x".toList, IsDir := false, Size := 5,
        ModTime := { sec := 1700000000, nsec := 3, loc := "UTC".toList },
        ETag := "ABC".toList, PickCode := "p".toList } _ (by decide) rfl).2.trans (by decide)⟩

/-- C8: when `path.Join("/", p)` is `/`, as for `/`, the empty path, `.`, `//` and `/..`,
`Stat` succeeds with the directory entry `/` (size 0, no ETag, no pick code) and leaves the
drive as it was: no cache access, no wait on the limiter, no upstream call. -/
theorem Stat_root (E : Env ω) (p : Str) (d : Drive ω) :
    (Join ["/".toList, p] = "/".toList →
      ∃ info, Drive.Stat E p d = (.ok info, d) ∧ info.Path = "/".toList ∧
        info.Name = "/".toList ∧ info.IsDir = true ∧ info.Size = 0 ∧ info.ETag = [] ∧
        info.PickCode = []) ∧
    (∀ q ∈ ["/".toList, [], ".".toList, "//".toList, "/..".toList],
      Join ["/".toList, q] = "/".toList) := by
  refine ⟨?_, by decide⟩
  intro hp
  simp only [Drive.Stat]
  rw [if_pos hp]
  exact ⟨_, rfl, rfl, rfl, rfl, rfl, rfl, rfl⟩

/-- Witness of C8 on the path `/..` and a fresh sample drive. -/
theorem Stat_root_witness :
    (Drive.Stat demoEnv "/..".toList (demoDrive 0 false 42)).2 = demoDrive 0 false 42 ∧
    (Drive.Stat demoEnv "/..".toList (demoDrive 0 false 42)).1.toOption.map
        (fun i => (i.Path, i.Name, i.IsDir, i.Size, i.ETag, i.PickCode)) =
      some ("/".toList, "/".toList, true, 0, [], []) := by
  obtain ⟨info, h, hp, hn, hd, hs, he, hc⟩ :=
    (Stat_root demoEnv "/..".toList (demoDrive 0 false 42)).1 (by decide)
  rw [h]
  exact ⟨rfl, by simp [Except.toOption, hp, hn, hd, hs, he, hc]⟩

/-- C9: on a path other than the root, `Stat` splits the cleaned path into the parent (up
to the last `/`) and a non-empty leaf, makes the one call `ReadDir(parent)` and keeps the
state that call leaves; it returns the error of `ReadDir`, else the first entry named
like the leaf, else the error `file not found`; so it succeeds exactly when `ReadDir`
succeeds with an entry of that name. -/
theorem Stat_nonroot (E : Env ω) (p : Str) (d : Drive ω)
    (hp : Join ["/".toList, p] ≠ "/".toList) :
    Drive.Stat E p d =
      ((match (Drive.ReadDir E (Split (TrimSuffix (Join ["/".toList, p]) "/".toList)).1 d).1 with
        | .error err => .error err
        | .ok files =>
          match files.find? (fun f => decide
              (f.Name = (Split (TrimSuffix (Join ["/".toList, p]) "/".toList)).2)) with
          | some f => .ok f
          | none => .error "file not found".toList),
       (Drive.ReadDir E (Split (TrimSuffix (Join ["/".toList, p]) "/".toList)).1 d).2) ∧
    ((∃ info, (Drive.Stat E p d).1 = .ok info) ↔
      ∃ files,
        (Drive.ReadDir E (Split (TrimSuffix (Join ["/".toList, p]) "/".toList)).1 d).1 =
          .ok files ∧
        ∃ f ∈ files, f.Name = (Split (TrimSuffix (Join ["/".toList, p]) "/".toList)).2) ∧
    ((Split (TrimSuffix (Join ["/".toList, p]) "/".toList)).1 ++
        (Split (TrimSuffix (Join ["/".toList, p]) "/".toList)).2 = Join ["/".toList, p] ∧
      '/' ∉ (Split (TrimSuffix (Join ["/".toList, p]) "/".toList)).2 ∧
      (Split (TrimSuffix (Join ["/".toList, p]) "/".toList)).2 ≠ [] ∧
      (Split (TrimSuffix (Join ["/".toList, p]) "/".toList)).1.getLast? = some '/') := by
  have hstat : Drive.Stat E p d =
      ((match (Drive.ReadDir E (Split (TrimSuffix (Join ["/".toList, p]) "/".toList)).1 d).1 with
        | .error err => .error err
        | .ok files =>
          match files.find? (fun f => decide
              (f.Name = (Split (TrimSuffix (Join ["/".toList, p]) "/".toList)).2)) with
          | some f => .ok f
          | none => .error "file not found".toList),
       (Drive.ReadDir E (Split (TrimSuffix (Join ["/".toList, p]) "/".toList)).1 d).2) := by
    simp only [Drive.Stat, if_neg hp]
    rcases hrd : Drive.ReadDir E (Split (TrimSuffix (Join ["/".toList, p]) "/".toList)).1 d
      with ⟨res, d1⟩
    cases res with
    | error err => rfl
    | ok files => simp only [statScan_eq_find]
  refine ⟨hstat, ?_, Split_cleaned p hp⟩
  rw [hstat]
  rcases hrd : Drive.ReadDir E (Split (TrimSuffix (Join ["/".toList, p]) "/".toList)).1 d
    with ⟨res, d1⟩
  cases res with
  | error err => simp
  | ok files =>
    simp only [Except.ok.injEq, exists_eq_left']
    cases hfind : files.find? (fun f => decide
        (f.Name = (Split (TrimSuffix (Join ["/".toList, p]) "/".toList)).2)) with
    | none =>
      have := List.find?_eq_none.mp hfind
      simp only [decide_eq_true_eq] at this
      constructor
      · rintro ⟨info, hinfo⟩; cases hinfo
      · rintro ⟨f, hf, hname⟩; exact absurd hname (this f hf)
    | some f =>
      have hmem := List.mem_of_find?_eq_some hfind
      have hname := List.find?_some hfind
      simp only [decide_eq_true_eq] at hname
      exact ⟨fun _ => ⟨f, hmem, hname⟩, fun _ => ⟨f, rfl⟩⟩

/-- Witness of C9: `Stat` of `/docs` on a fresh sample drive lists the root once and
returns the entry named `docs`. -/
theorem Stat_nonroot_witness :
    (Drive.Stat demoEnv "/docs".toList (demoDrive 2 true 0)).2 =
      (Drive.ReadDir demoEnv "/".toList (demoDrive 2 true 0)).2 ∧
    ((Drive.Stat demoEnv "/docs".toList (demoDrive 2 true 0)).1.toOption.map
      (fun i => (i.Path, i.IsDir))) = some ("/docs".toList, true) :=
  ⟨by
    have h := (Stat_nonroot demoEnv "/docs".toList (demoDrive 2 true 0) (by decide)).1
    rw [h]
    decide,
   by decide⟩


/-- C1 (as amended): on a path `cleanPath` accepts, a PROPFIND whose `Depth` is neither
`0`, `1` nor empty is answered 403 with the text `bad depth`, without any call on the `FS`
and without a change of its state; a path `cleanPath` rejects is answered 400 whatever the
`Depth`; an empty or absent `Depth` is handled as `1`. -/
theorem handlePropfind_bad_depth (L : Lib) (h : Handler σ) (w : ResponseWriter) (r : Request)
    (s : σ) (hw : w.status = 0) :
    ((h.cleanPath r.URLPath).2 = true →
      headerGet r.Header "Depth".toList ≠ "0".toList →
      headerGet r.Header "Depth".toList ≠ "1".toList →
      headerGet r.Header "Depth".toList ≠ [] →
      (h.handlePropfind L w r s).w = httpError w "bad depth".toList 403 ∧
      (h.handlePropfind L w r s).w.status = 403 ∧
      (h.handlePropfind L w r s).calls = [] ∧
      (h.handlePropfind L w r s).fs = s) ∧
    ((h.cleanPath r.URLPath).2 = false →
      (h.handlePropfind L w r s).w.status = 400 ∧
      (h.handlePropfind L w r s).calls = [] ∧
      (h.handlePropfind L w r s).fs = s) ∧
    (∀ r1 : Request, r1.URLPath = r.URLPath →
      headerGet r.Header "Depth".toList = [] →
      headerGet r1.Header "Depth".toList = "1".toList →
      h.handlePropfind L w r s = h.handlePropfind L w r1 s) := by
  refine ⟨?_, ?_, ?_⟩
  · intro hc h0 h1 he
    have hd : ((if headerGet r.Header "Depth".toList = [] then "1".toList
        else headerGet r.Header "Depth".toList) != "0".toList &&
        (if headerGet r.Header "Depth".toList = [] then "1".toList
        else headerGet r.Header "Depth".toList) != "1".toList) = true := by
      rw [if_neg he]
      simp only [bne_iff_ne, ne_eq, Bool.and_eq_true]
      exact ⟨h0, h1⟩
    have heq : h.handlePropfind L w r s = ⟨httpError w "bad depth".toList 403, [], s⟩ := by
      simp only [Handler.handlePropfind, hc, Bool.not_true, Bool.false_eq_true, if_false, hd,
        if_true]
    rw [heq]
    exact ⟨rfl, httpError_status w _ 403 hw (by decide), rfl, rfl⟩
  · intro hc
    have heq : h.handlePropfind L w r s = ⟨httpError w "bad path".toList 400, [], s⟩ := by
      simp only [Handler.handlePropfind, hc, Bool.not_false, if_true]
    rw [heq]
    exact ⟨httpError_status w _ 400 hw (by decide), rfl, rfl⟩
  · intro r1 hu he h1
    have hne : ¬ ("1".toList = ([] : Str)) := by decide
    simp only [Handler.handlePropfind, hu, he, h1, if_true, if_neg hne]

/-- Witness of C1 (as amended): `Depth: infinity` on `/dav/docs` with base path `/dav`. -/
theorem handlePropfind_bad_depth_witness :
    ((demoHandler "/dav".toList).handlePropfind demoLib freshWriter
      { Method := "PROPFIND".toList, URLPath := "/dav/docs".toList,
        Header := [("Depth".toList, "infinity".toList)] } (demoDrive 3 true 0)).w.status = 403 ∧
    ((demoHandler "/dav".toList).handlePropfind demoLib freshWriter
      { Method := "PROPFIND".toList, URLPath := "/dav/docs".toList,
        Header := [("Depth".toList, "infinity".toList)] } (demoDrive 3 true 0)).calls = [] :=
  ⟨((handlePropfind_bad_depth demoLib (demoHandler "/dav".toList) freshWriter
      { Method := "PROPFIND".toList, URLPath := "/dav/docs".toList,
        Header := [("Depth".toList, "infinity".toList)] } (demoDrive 3 true 0) rfl).1
      (by decide) (by decide) (by decide) (by decide)).2.1,
   ((handlePropfind_bad_depth demoLib (demoHandler "/dav".toList) freshWriter
      { Method := "PROPFIND".toList, URLPath := "/dav/docs".toList,
        Header := [("Depth".toList, "infinity".toList)] } (demoDrive 3 true 0) rfl).1
      (by decide) (by decide) (by decide) (by decide)).2.2.1⟩

/-- C1 fails as stated: with base path `/dav`, a PROPFIND of `/other` with `Depth: 2` is
answered 400, not 403. -/
theorem handlePropfind_bad_depth_counterexample :
    ((demoHandler "/dav".toList).handlePropfind demoLib freshWriter
      { Method := "PROPFIND".toList, URLPath := "/other".toList,
        Header := [("Depth".toList, "2".toList)] } (demoDrive 3 true 0)).w.status = 400 ∧
    ((demoHandler "/dav".toList).handlePropfind demoLib freshWriter
      { Method := "PROPFIND".toList, URLPath := "/other".toList,
        Header := [("Depth".toList, "2".toList)] } (demoDrive 3 true 0)).w.status ≠ 403 := by
  decide

/-- C2: on an accepted path whose `Stat` gives a directory and whose `ReadDir` gives `n`
children, `Depth: 0` yields the multi-status with the one entry of the target, and
`Depth: 1` or no `Depth` yields `1 + n` entries: the target, then the children in listing
order. When `Stat` gives a file there is one entry for either depth and no `ReadDir`. -/
theorem handlePropfind_entries (L : Lib) (h : Handler σ) (w : ResponseWriter) (r : Request)
    (s s1 : σ) (p : Str) (root : Info) (hw : w.status = 0)
    (hc : h.cleanPath r.URLPath = (p, true)) (hstat : h.FS.Stat p s = (.ok root, s1)) :
    (root.IsDir = true → ∀ (children : List Info) (s2 : σ),
      h.FS.ReadDir p s1 = (.ok children, s2) →
      (headerGet r.Header "Depth".toList = "0".toList →
        (h.handlePropfind L w r s).w.status = 207 ∧
        (h.handlePropfind L w r s).w.body =
          w.body ++ [.text XmlHeader,
            .xml { XmlnsD := "DAV:".toList, Response := [h.makeResponse L root] }] ∧
        (h.handlePropfind L w r s).calls = [.Stat p] ∧
        (h.handlePropfind L w r s).fs = s1) ∧
      (headerGet r.Header "Depth".toList = "1".toList ∨
          headerGet r.Header "Depth".toList = [] →
        (h.handlePropfind L w r s).w.status = 207 ∧
        (h.handlePropfind L w r s).w.body =
          w.body ++ [.text XmlHeader,
            .xml { XmlnsD := "DAV:".toList,
                   Response := h.makeResponse L root :: children.map (h.makeResponse L) }] ∧
        (h.makeResponse L root :: children.map (h.makeResponse L)).length =
          1 + children.length ∧
        (h.handlePropfind L w r s).calls = [.Stat p, .ReadDir p] ∧
        (h.handlePropfind L w r s).fs = s2)) ∧
    (root.IsDir = false →
      (headerGet r.Header "Depth".toList = "0".toList ∨
        headerGet r.Header "Depth".toList = "1".toList ∨
        headerGet r.Header "Depth".toList = []) →
      (h.handlePropfind L w r s).w.status = 207 ∧
      (h.handlePropfind L w r s).w.body =
        w.body ++ [.text XmlHeader,
          .xml { XmlnsD := "DAV:".toList, Response := [h.makeResponse L root] }] ∧
      (h.handlePropfind L w r s).calls = [.Stat p] ∧
      (h.handlePropfind L w r s).fs = s1) := by
  have hms := fun children => writeMultiStatus_eq L h w root children hw
  have hne : ¬ ("1".toList = ([] : Str)) := by decide
  have hne0 : ¬ ("0".toList = ([] : Str)) := by decide
  have hc0 : ("0".toList != "0".toList && "0".toList != "1".toList) = false := by decide
  have hc1 : ("1".toList != "0".toList && "1".toList != "1".toList) = false := by decide
  have h01 : ("0".toList == "1".toList) = false := by decide
  have h11 : ("1".toList == "1".toList) = true := by decide
  have hcp : (!(h.cleanPath r.URLPath).2) = false := by rw [hc]; rfl
  have hp : (h.cleanPath r.URLPath).1 = p := by rw [hc]
  have one : h.handlePropfind L w r s = ⟨h.writeMultiStatus L w root [], [.Stat p], s1⟩ →
      (h.handlePropfind L w r s).w.status = 207 ∧
      (h.handlePropfind L w r s).w.body =
        w.body ++ [.text XmlHeader,
          .xml { XmlnsD := "DAV:".toList, Response := [h.makeResponse L root] }] ∧
      (h.handlePropfind L w r s).calls = [.Stat p] ∧
      (h.handlePropfind L w r s).fs = s1 := by
    intro heq
    rw [heq]
    exact ⟨(hms []).1, (hms []).2, rfl, rfl⟩
  refine ⟨?_, ?_⟩
  · intro hdir children s2 hrd
    refine ⟨?_, ?_⟩
    · intro hd
      apply one
      simp only [Handler.handlePropfind, hcp, hp, hd, if_neg hne0, hc0, hstat, hdir, h01,
        Bool.false_eq_true, if_false, Bool.and_false]
    · intro hd
      have hdepth : (if headerGet r.Header "Depth".toList = [] then "1".toList
          else headerGet r.Header "Depth".toList) = "1".toList := by
        rcases hd with hd | hd
        · rw [hd, if_neg hne]
        · rw [if_pos hd]
      have heq : h.handlePropfind L w r s =
          ⟨h.writeMultiStatus L w root children, [.Stat p, .ReadDir p], s2⟩ := by
        simp only [Handler.handlePropfind, hcp, hp, hdepth, hc1, hstat, hdir, h11, hrd,
          Bool.false_eq_true, if_false, Bool.and_true, if_true]
      rw [heq]
      refine ⟨(hms children).1, (hms children).2, ?_, rfl, rfl⟩
      simp only [List.length_cons, List.length_map]
      omega
  · intro hfile hd
    apply one
    rcases hd with hd | hd | hd
    · simp only [Handler.handlePropfind, hcp, hp, hd, if_neg hne0, hc0, hstat, hfile,
        Bool.false_eq_true, if_false, Bool.false_and]
    · simp only [Handler.handlePropfind, hcp, hp, hd, if_neg hne, hc1, hstat, hfile,
        Bool.false_eq_true, if_false, Bool.false_and]
    · simp only [Handler.handlePropfind, hcp, hp, hd, if_true, hc1, hstat, hfile,
        Bool.false_eq_true, if_false, Bool.false_and]

/-- Witness of C2: PROPFIND of the root of the sample drive, whose listing has two
children, gives three entries at depth 1. -/
theorem handlePropfind_entries_witness :
    ((demoHandler "/dav".toList).handlePropfind demoLib freshWriter
      { Method := "PROPFIND".toList, URLPath := "/dav/".toList, Header := [] }
      (demoDrive 2 true 0)).w.body =
      [.text XmlHeader,
       .xml { XmlnsD := "DAV:".toList,
              Response := (demoHandler "/dav".toList).makeResponse demoLib
                  { Path := "/".toList, Name := "/".toList, IsDir := true, Size := 0,
                    ModTime := { sec := 0, nsec := 0, loc := "Local".toList },
                    ETag := [], PickCode := [] } ::
                (toInfos "/".toList demoFiles).map
                  ((demoHandler "/dav".toList).makeResponse demoLib) }] :=
  (((handlePropfind_entries demoLib (demoHandler "/dav".toList) freshWriter
      { Method := "PROPFIND".toList, URLPath := "/dav/".toList, Header := [] }
      (demoDrive 2 true 0) (demoDrive 2 true 0) "/".toList
      { Path := "/".toList, Name := "/".toList, IsDir := true, Size := 0,
        ModTime := { sec := 0, nsec := 0, loc := "Local".toList }, ETag := [], PickCode := [] }
      rfl (by decide) rfl).1 rfl (toInfos "/".toList demoFiles)
      (Drive.ReadDir demoEnv "/".toList (demoDrive 2 true 0)).2 rfl).2
      (Or.inr (by decide))).2.1


/-- C3: a GET or HEAD on an accepted path whose `Stat` gives a file and whose
`If-None-Match` equals the computed ETag is answered 304 with nothing written to the body,
with the headers `ETag`, `Last-Modified` and `Accept-Ranges` set, and with `Stat` as the
only call on the `FS`: `ServeContent` is not called. -/
theorem handleGetHead_not_modified (L : Lib) (h : Handler σ) (w : ResponseWriter) (r : Request)
    (s s1 : σ) (p : Str) (info : Info) (hw : w.status = 0)
    (hm : r.Method = "GET".toList ∨ r.Method = "HEAD".toList)
    (hc : h.cleanPath r.URLPath = (p, true)) (hstat : h.FS.Stat p s = (.ok info, s1))
    (hfile : info.IsDir = false)
    (hinm : headerGet r.Header "If-None-Match".toList = ensureETag L info) :
    h.ServeHTTP L w r s = h.handleGetHead L w r s ∧
    (h.handleGetHead L w r s).w.status = 304 ∧
    (h.handleGetHead L w r s).w.body = w.body ∧
    headerGet (h.handleGetHead L w r s).w.header "ETag".toList = ensureETag L info ∧
    headerGet (h.handleGetHead L w r s).w.header "Last-Modified".toList =
      L.formatHTTPTime info.ModTime ∧
    headerGet (h.handleGetHead L w r s).w.header "Accept-Ranges".toList = "bytes".toList ∧
    (h.handleGetHead L w r s).calls = [.Stat p] ∧
    (h.handleGetHead L w r s).fs = s1 := by
  have hcp : (!(h.cleanPath r.URLPath).2) = false := by rw [hc]; rfl
  have hp : (h.cleanPath r.URLPath).1 = p := by rw [hc]
  have hcond : (ensureETag L info != [] && Contains (ensureETag L info) (ensureETag L info))
      = true := by
    simp only [Contains_self, Bool.and_true, bne_iff_ne, ne_eq]
    exact ensureETag_ne_nil L info
  have heq : h.handleGetHead L w r s =
      ⟨(((w.Set "ETag".toList (ensureETag L info)).Set "Last-Modified".toList
          (L.formatHTTPTime info.ModTime)).Set "Accept-Ranges".toList
          "bytes".toList).WriteHeader 304, [.Stat p], s1⟩ := by
    simp only [Handler.handleGetHead, hcp, hp, hstat, hfile, hinm, hcond, Bool.false_eq_true,
      if_false, if_true]
  have e1 : ¬ ("ETag".toList = "Accept-Ranges".toList) := by decide
  have e2 : ¬ ("ETag".toList = "Last-Modified".toList) := by decide
  have e3 : ¬ ("Last-Modified".toList = "Accept-Ranges".toList) := by decide
  refine ⟨ServeHTTP_get_head L h w r s hm, ?_⟩
  rw [heq]
  refine ⟨WriteHeader_status _ _ (by simp only [Set_status, hw]), ?_, ?_, ?_, ?_, rfl, rfl⟩
  · simp only [WriteHeader_body, Set_body]
  · simp only [WriteHeader_header, headerGet_Set, if_neg e1, if_neg e2, if_true]
  · simp only [WriteHeader_header, headerGet_Set, if_neg e3, if_true]
  · simp only [WriteHeader_header, headerGet_Set, if_true]

/-- Witness of C3: a GET of `/dav/a.txt` on the sample drive with the ETag of that file in
`If-None-Match`. -/
theorem handleGetHead_not_modified_witness :
    ((demoHandler "/dav".toList).handleGetHead demoLib freshWriter
      { Method := "GET".toList, URLPath := "/dav/a.txt".toList,
        Header := [("If-None-Match".toList, [dquote] ++ "ABCDEF".toList ++ [dquote])] }
      (demoDrive 2 true 0)).w.status = 304 ∧
    ((demoHandler "/dav".toList).handleGetHead demoLib freshWriter
      { Method := "GET".toList, URLPath := "/dav/a.txt".toList,
        Header := [("If-None-Match".toList, [dquote] ++ "ABCDEF".toList ++ [dquote])] }
      (demoDrive 2 true 0)).w.body = [] :=
  ⟨(handleGetHead_not_modified demoLib (demoHandler "/dav".toList) freshWriter
      { Method := "GET".toList, URLPath := "/dav/a.txt".toList,
        Header := [("If-None-Match".toList, [dquote] ++ "ABCDEF".toList ++ [dquote])] }
      (demoDrive 2 true 0) (Drive.Stat demoEnv "/a.txt".toList (demoDrive 2 true 0)).2
      "/a.txt".toList
      { Path := "/a.txt".toList, Name := "a.txt".toList, IsDir := false, Size := 5,
        ModTime := { sec := 1700000000, nsec := 0, loc := "UTC".toList },
        ETag := "ABCDEF".toList, PickCode := "pc1".toList }
      rfl (Or.inl rfl) (by decide) rfl rfl (by decide)).2.1,
   (handleGetHead_not_modified demoLib (demoHandler "/dav".toList) freshWriter
      { Method := "GET".toList, URLPath := "/dav/a.txt".toList,
        Header := [("If-None-Match".toList, [dquote] ++ "ABCDEF".toList ++ [dquote])] }
      (demoDrive 2 true 0) (Drive.Stat demoEnv "/a.txt".toList (demoDrive 2 true 0)).2
      "/a.txt".toList
      { Path := "/a.txt".toList, Name := "a.txt".toList, IsDir := false, Size := 5,
        ModTime := { sec := 1700000000, nsec := 0, loc := "UTC".toList },
        ETag := "ABCDEF".toList, PickCode := "pc1".toList }
      rfl (Or.inl rfl) (by decide) rfl rfl (by decide)).2.2.1⟩

/-- C6 (defect of the code): the claim asks for a 5xx answer when `Stat` fails on the rate
limit or on the upstream listing, and the code answers 404. With the limiter out of tokens,
`Stat` of `/a.txt` fails with `rate limit exceeded` and the GET of `/dav/a.txt` gets 404;
with the upstream listing down, `Stat` fails with `list files failed: upstream down` and
the PROPFIND of `/dav/a.txt` gets 404. The same two failures reaching the handler through
`ReadDir` (PROPFIND of the root, whose `Stat` needs no upstream) are answered 500. -/
theorem ServeHTTP_stat_failure_answers_404 :
    ((Drive.Stat demoEnv "/a.txt".toList (demoDrive 0 true 0)).1 =
        .error "rate limit exceeded".toList ∧
      ((demoHandler "/dav".toList).ServeHTTP demoLib freshWriter
        { Method := "GET".toList, URLPath := "/dav/a.txt".toList, Header := [] }
        (demoDrive 0 true 0)).w.status = 404) ∧
    ((Drive.Stat demoEnv "/a.txt".toList (demoDrive 5 false 0)).1 =
        .error "list files failed: upstream down".toList ∧
      ((demoHandler "/dav".toList).ServeHTTP demoLib freshWriter
        { Method := "PROPFIND".toList, URLPath := "/dav/a.txt".toList, Header := [] }
        (demoDrive 5 false 0)).w.status = 404) ∧
    ((Drive.ReadDir demoEnv "/".toList (demoDrive 0 true 0)).1 =
        .error "rate limit exceeded".toList ∧
      ((demoHandler "/dav".toList).ServeHTTP demoLib freshWriter
        { Method := "PROPFIND".toList, URLPath := "/dav/".toList, Header := [] }
        (demoDrive 0 true 0)).w.status = 500) ∧
    ((Drive.ReadDir demoEnv "/".toList (demoDrive 5 false 0)).1 =
        .error "list files failed: upstream down".toList ∧
      ((demoHandler "/dav".toList).ServeHTTP demoLib freshWriter
        { Method := "PROPFIND".toList, URLPath := "/dav/".toList, Header := [] }
        (demoDrive 5 false 0)).w.status = 500) :=
  ⟨⟨rfl, by decide⟩, ⟨rfl, by decide⟩, ⟨rfl, by decide⟩, ⟨rfl, by decide⟩⟩

/-- C4 (as amended): let a first `ReadDir(p)`, started with no live cache entry for `p`,
succeed at time `t0`, the reading of the clock when the call stores its result and returns.
It calls the upstream listing once and reads and writes the cache under the key `dir:`
followed by the cleaned path. A second `ReadDir(p)` whose cache lookup reads the clock at
`t1`, with `t1 - t0` at most the TTL, or with a TTL of zero or less (no expiry), returns the
same listing with the cache read under that key as its only event, so the upstream listing
is called once in total. With a positive TTL and `t1 - t0` above it, the second call reads
the cache under that key, and calls the upstream listing again when the limiter lets it
through; when the limiter refuses the wait, it fails with `rate limit exceeded` and makes no
upstream listing call. Clock readings and the TTL are `int64` values (below `2^63`). -/
theorem ReadDir_cached (E : Env ω) (p : Str) (d0 d1 : Drive ω) (infos : List Info)
    (hfresh : (d0.cacheGet E (cacheKeyDir (Join ["/".toList, p]))).1 = none)
    (hfirst : Drive.ReadDir E p d0 = (.ok infos, d1)) :
    (listCalls d1.log = listCalls d0.log + 1 ∧
      ∃ mid, d1.log = d0.log ++ [.cacheGet ("dir:".toList ++ Join ["/".toList, p])] ++ mid ++
        [.cacheSet ("dir:".toList ++ Join ["/".toList, p])]) ∧
    (∀ world : ω,
      d0.defaultExpiration < 2 ^ 63 → E.Now d1.world < 2 ^ 63 →
      (d0.defaultExpiration ≤ 0 ∨
        (E.Now world : Int) - E.Now d1.world ≤ d0.defaultExpiration) →
      Drive.ReadDir E p { d1 with world := world } =
        (.ok infos, { d1 with world := world,
                              log := d1.log ++ [.cacheGet ("dir:".toList ++ Join ["/".toList, p])] }) ∧
      listCalls (Drive.ReadDir E p { d1 with world := world }).2.log =
        listCalls d0.log + 1) ∧
    (∀ world : ω,
      E.Now world < 2 ^ 63 →
      0 < d0.defaultExpiration →
      d0.defaultExpiration < (E.Now world : Int) - E.Now d1.world →
      (∃ rest, (Drive.ReadDir E p { d1 with world := world }).2.log =
        d1.log ++ Event.cacheGet ("dir:".toList ++ Join ["/".toList, p]) :: rest) ∧
      (limiterAllows E (Join ["/".toList, p]) { d1 with world := world } = true →
        listCalls (Drive.ReadDir E p { d1 with world := world }).2.log =
          listCalls d0.log + 2) ∧
      (d1.hasLimiter = true → (E.Wait world).1 = false →
        (Drive.ReadDir E p { d1 with world := world }).1 =
          .error "rate limit exceeded".toList ∧
        listCalls (Drive.ReadDir E p { d1 with world := world }).2.log =
          listCalls d0.log + 1)) := by
  have hkey : ("dir:".toList ++ Join ["/".toList, p]) = cacheKeyDir (Join ["/".toList, p]) := rfl
  rw [hkey]
  generalize hk : cacheKeyDir (Join ["/".toList, p]) = key at *
  -- the first call
  have hmiss := ReadDir_miss E p d0 (by rw [hk]; exact hfresh)
  rw [hk] at hmiss
  obtain ⟨fi, fe, fl, ev, flog, fok, _, _⟩ := miss_frame E (Join ["/".toList, p])
    { d0 with log := d0.log ++ [.cacheGet key] }
  rcases hX : Drive.checkRateLimit E (Drive.listDir E (Join ["/".toList, p]))
      { d0 with log := d0.log ++ [.cacheGet key] } with ⟨res, d2⟩
  rw [hX] at hmiss fi fe fl flog fok
  simp only at fi fe fl flog fok
  rw [hfirst] at hmiss
  cases res with
  | error err => simp at hmiss
  | ok v =>
    obtain ⟨hev, l, hl⟩ := fok ⟨v, rfl⟩
    simp only [Except.ok.injEq] at hl
    subst hl
    simp only [Prod.mk.injEq, Except.ok.injEq] at hmiss
    obtain ⟨rfl, rfl⟩ := hmiss
    have hworld : (d2.cacheSet E key (.infos infos)).world = d2.world := rfl
    rw [hworld]
    have hlog1 : (d2.cacheSet E key (.infos infos)).log =
        d0.log ++ [.cacheGet key] ++ ev ++ [.cacheSet key] := by
      simp only [Drive.cacheSet, flog]
    have hcount1 : listCalls (d2.cacheSet E key (.infos infos)).log = listCalls d0.log + 1 := by
      rw [hlog1]
      simp only [listCalls_append, listCalls_cacheGet, listCalls_cacheSet, hev]
    have hlook : ∀ world : ω,
        ({ d2.cacheSet E key (.infos infos) with world := world } : Drive ω).items.lookup
          key = some { Object := .infos infos,
                       Expiration := if d0.defaultExpiration > 0
                         then wrapInt64 ((E.Now d2.world : Int) + d0.defaultExpiration)
                         else 0 } := by
      intro world
      simp only [Drive.cacheSet, List.lookup, beq_self_eq_true, fe]
    have hnn := Int.ofNat_nonneg (E.Now d2.world)
    refine ⟨⟨hcount1, ev, hlog1⟩, ?_, ?_⟩
    · intro world hrange ht0 hin
      have ht0' : (E.Now d2.world : Int) < 2 ^ 63 := by exact_mod_cast ht0
      have hlive : ¬ ((if d0.defaultExpiration > 0
          then wrapInt64 ((E.Now d2.world : Int) + d0.defaultExpiration) else 0) > 0 ∧
          (E.Now world : Int) > (if d0.defaultExpiration > 0
          then wrapInt64 ((E.Now d2.world : Int) + d0.defaultExpiration) else 0)) := by
        rintro ⟨h1, h2⟩
        by_cases hpos : d0.defaultExpiration > 0
        · simp only [hpos, if_true] at h1 h2
          by_cases hsmall : (E.Now d2.world : Int) + d0.defaultExpiration < 2 ^ 63
          · rw [wrapInt64_small _ (by omega) hsmall] at h2
            rcases hin with hin | hin <;> omega
          · have := wrapInt64_over ((E.Now d2.world : Int) + d0.defaultExpiration)
              (by omega) (by norm_num at hrange ht0' ⊢; omega)
            omega
        · simp only [hpos, if_false] at h1
          omega
      have hhit := ReadDir_hit E p
        { d2.cacheSet E key (.infos infos) with world := world } _ infos
        (by rw [hk]; exact hlook world) rfl hlive
      rw [hk] at hhit
      refine ⟨hhit, ?_⟩
      rw [hhit]
      simp only [listCalls_append, listCalls_cacheGet, hcount1]
    · intro world ht1 hpos hout
      have ht1' : (E.Now world : Int) < 2 ^ 63 := by exact_mod_cast ht1
      have hw : wrapInt64 ((E.Now d2.world : Int) + d0.defaultExpiration) =
          (E.Now d2.world : Int) + d0.defaultExpiration :=
        wrapInt64_small _ (by omega) (by omega)
      obtain ⟨hrest, hadm, hden⟩ := ReadDir_expired E p
        { d2.cacheSet E key (.infos infos) with world := world } _
        (by rw [hk]; exact hlook world)
        (by
          simp only [hpos, if_true, hw]
          omega)
        (by
          simp only [hpos, if_true, hw]
          show (E.Now world : Int) > (E.Now d2.world : Int) + d0.defaultExpiration
          omega)
      rw [hk] at hrest
      refine ⟨hrest, ?_, ?_⟩
      · intro ha
        rw [hadm ha]
        show listCalls (d2.cacheSet E key (.infos infos)).log + 1 = listCalls d0.log + 2
        rw [hcount1]
      · intro hlim hwait
        obtain ⟨hres, hc⟩ := hden hlim hwait
        refine ⟨hres, ?_⟩
        rw [hc]
        exact hcount1

/-- Witness of C4 (as amended): on the sample drive (TTL one minute) the first listing of
the root, started at clock 0, stores its result at 4 s, after two waits and the upstream
call. A second listing at clock 61 s, within a minute of that, returns the same entries
with one upstream listing call in total, even with the limiter out of tokens and the
upstream down. -/
theorem ReadDir_cached_witness :
    demoEnv.Now (Drive.ReadDir demoEnv "/".toList (demoDrive 2 true 0)).2.world = 4000000000 ∧
    (Drive.ReadDir demoEnv "/".toList
      { (Drive.ReadDir demoEnv "/".toList (demoDrive 2 true 0)).2 with
        world := { tokens := 0, listOk := false, clock := 61000000000 } }).1 =
      .ok (toInfos "/".toList demoFiles) ∧
    listCalls (Drive.ReadDir demoEnv "/".toList
      { (Drive.ReadDir demoEnv "/".toList (demoDrive 2 true 0)).2 with
        world := { tokens := 0, listOk := false, clock := 61000000000 } }).2.log = 1 :=
  ⟨by decide,
   congrArg Prod.fst
    (((ReadDir_cached demoEnv "/".toList (demoDrive 2 true 0)
      (Drive.ReadDir demoEnv "/".toList (demoDrive 2 true 0)).2 (toInfos "/".toList demoFiles)
      rfl rfl).2.1 { tokens := 0, listOk := false, clock := 61000000000 }
      (by decide) (by decide) (Or.inr (by decide))).1),
   ((ReadDir_cached demoEnv "/".toList (demoDrive 2 true 0)
      (Drive.ReadDir demoEnv "/".toList (demoDrive 2 true 0)).2 (toInfos "/".toList demoFiles)
      rfl rfl).2.1 { tokens := 0, listOk := false, clock := 61000000000 }
      (by decide) (by decide) (Or.inr (by decide))).2⟩

/-- C4 fails as stated. On the sample drive (TTL one minute, limiter with two tokens) the
first listing of the root succeeds at clock 4 s; a second listing at clock 120 s, after
expiry, fails with `rate limit exceeded` and the upstream listing has still been called
once only. And with a configured TTL of zero minutes a second listing any time later is
served from the cache, again with one upstream listing call in total. -/
theorem ReadDir_cached_counterexample :
    ((Drive.ReadDir demoEnv "/".toList (demoDrive 2 true 0)).1 =
        .ok (toInfos "/".toList demoFiles) ∧
      demoEnv.Now (Drive.ReadDir demoEnv "/".toList (demoDrive 2 true 0)).2.world =
        4000000000 ∧
      (Drive.ReadDir demoEnv "/".toList
        { (Drive.ReadDir demoEnv "/".toList (demoDrive 2 true 0)).2 with
          world := { tokens := 0, listOk := true, clock := 120000000000 } }).1 =
        .error "rate limit exceeded".toList ∧
      listCalls (Drive.ReadDir demoEnv "/".toList
        { (Drive.ReadDir demoEnv "/".toList (demoDrive 2 true 0)).2 with
          world := { tokens := 0, listOk := true, clock := 120000000000 } }).2.log = 1) ∧
    ((Drive.ReadDir demoEnv "/".toList
        (newDrive { Rate := 3, CacheExpire := 0 }
          { tokens := 9, listOk := true, clock := 0 })).1 =
        .ok (toInfos "/".toList demoFiles) ∧
      (Drive.ReadDir demoEnv "/".toList
        { (Drive.ReadDir demoEnv "/".toList
            (newDrive { Rate := 3, CacheExpire := 0 }
              { tokens := 9, listOk := true, clock := 0 })).2 with
          world := { tokens := 9, listOk := true, clock := 1000000000000000000 } }).1 =
        .ok (toInfos "/".toList demoFiles) ∧
      listCalls (Drive.ReadDir demoEnv "/".toList
        { (Drive.ReadDir demoEnv "/".toList
            (newDrive { Rate := 3, CacheExpire := 0 }
              { tokens := 9, listOk := true, clock := 0 })).2 with
          world := { tokens := 9, listOk := true, clock := 1000000000000000000 } }).2.log = 1) :=
  ⟨⟨rfl, by decide, rfl, by decide⟩, ⟨rfl, rfl, by decide⟩⟩

end Webdav115
